import Mathlib

/-!
Verification development for the DataFusion file-merging engine.

The definitions below are a shallow embedding, in Lean 4, of the core of the
repository: the data model (tables of typed cells), the tabular reader's
delimiter detection (`src/utils/file_handlers.py`), the column reconciler
(`suggest_column_mapping` in `src/utils/data_processors.py`), the cleaning
stage (`clean_dataframe`), the merge engine (`FileMerger.process_files` in
`src/controllers/file_merger.py`), the built-in transformers
(`src/plugins/data_transformers/*.py`) and the calculated-column expression
evaluator (`create_calculated_column`).

Modelling conventions:
* A pandas `DataFrame` is a `DataFrame`: an ordered list of column names plus
  row-major cells.  `NaN`/`NaT` is the explicit missing-marker `Cell.na`.
* Python floats are modelled as exact rationals (`Rat`); float rounding is
  abstracted away.  Pandas timestamps are civil date-time records.
* Raising an exception is modelled with `Except String`; Python's in-place
  mutation of objects is modelled either by explicit state passing
  (`MergeOptions` threading in `process_files`) or, where aliasing matters,
  by a small heap of tables (`PyState`).
* Streamlit display calls (`st.info`, `st.warning`, ...) are observable
  effects of the merge engine and are modelled as structured diagnostics.
-/

/-- A single cell of a table: the missing-marker (`NaN`/`NaT`), a numeric
value, a text value, a timestamp, a categorical code (an index into the
categories of a binned column), or an arbitrary Python object stored in
an object column (pandas stores any object; the model tags it by a
description). -/
inductive Cell where
  | na
  | num (q : Rat)
  | str (s : String)
  | timestamp (year : Int) (month day hour minute second : Nat)
  | cat (idx : Nat)
  | obj (descr : String)
deriving DecidableEq, Repr

/-- A table: ordered column names plus row-major cells.  Mirrors the pandas
`DataFrame` as used by the repository (row count shared by all columns;
`rows` entries are aligned with `cols`). -/
structure DataFrame where
  cols : List String
  rows : List (List Cell)
deriving DecidableEq, Repr

/-- Index of the first occurrence of a column name in a column list. -/
def colIdx (c : String) : List String → Option Nat
  | [] => none
  | x :: xs => if x = c then some 0 else (colIdx c xs).map (· + 1)

/-- The cell of one row under column name `c` (first occurrence); the
missing-marker when the column does not exist.  Mirrors label-based lookup
in pandas. -/
def rowCell (cols : List String) (row : List Cell) (c : String) : Cell :=
  match colIdx c cols with
  | some i => row.getD i Cell.na
  | none => Cell.na

/-- The values of column `c` of a table, top to bottom. -/
def colValues (d : DataFrame) (c : String) : List Cell :=
  d.rows.map (fun r => rowCell d.cols r c)

/-- Models `df[name] = vals`: overwrite the column when the label exists, else
append it on the right.  `vals` is aligned with `d.rows`. -/
def setColumn (d : DataFrame) (name : String) (vals : List Cell) : DataFrame :=
  match colIdx name d.cols with
  | some i =>
      { cols := d.cols
      , rows := (d.rows.zip vals).map (fun p => p.1.set i p.2) }
  | none =>
      { cols := d.cols ++ [name]
      , rows := (d.rows.zip vals).map (fun p => p.1 ++ [p.2]) }

/-- Lower-casing of a string, character by character.  Models Python's
`str.lower`/the repository's `col.lower()` on ASCII names. -/
def strLower (s : String) : String := String.mk (s.toList.map Char.toLower)

/-- Models `df.columns = [col.lower() for col in df.columns]`. -/
def lowerCols (d : DataFrame) : DataFrame :=
  { cols := d.cols.map strLower, rows := d.rows }

/-- Union of column lists in first-seen order, as built by
`pd.concat`: fold each table's columns in, keeping only labels not seen
before (duplicate labels inside one table are kept, as pandas does). -/
def addNewCols (acc : List String) (cs : List String) : List String :=
  acc ++ cs.filter (fun c => !(decide (c ∈ acc)))

/-- Output column order of `pd.concat(dfs)`. -/
def unionCols (dfs : List DataFrame) : List String :=
  dfs.foldl (fun acc d => addNewCols acc d.cols) []

/-- Re-index one row of a table onto a wider column list: cells of columns
the table lacks become the missing-marker.  Mirrors the column alignment of
`pd.concat`. -/
def reindexRow (cols : List String) (allCols : List String) (row : List Cell) : List Cell :=
  allCols.map (rowCell cols row)

/-- Models `pd.concat(dfs, ignore_index=True)`: stack all rows in input order over
the first-seen union of columns, filling absent columns with the
missing-marker. -/
def concatTables (dfs : List DataFrame) : DataFrame :=
  let allCols := unionCols dfs
  { cols := allCols
  , rows := dfs.flatMap (fun d => d.rows.map (reindexRow d.cols allCols)) }

/-- First-occurrence de-duplication of a list of names, skipping names in
`seen`; used to state the first-seen-order property of `unionCols`. -/
def dedupFirstAux (seen : List String) : List String → List String
  | [] => []
  | c :: cs =>
      if c ∈ seen then dedupFirstAux seen cs
      else c :: dedupFirstAux (c :: seen) cs

/-!
Exact rational arithmetic used by the embedding.  These are the ordinary
field operations on `Rat` (bridging lemmas below prove them equal to
`+ - * /`), spelled through `mkRat` so that every definition in this file
evaluates by kernel reduction.
-/

/-- Rational addition through `mkRat`. -/
def qAdd (a b : Rat) : Rat := mkRat (a.num * b.den + b.num * a.den) (a.den * b.den)

/-- Rational negation through `mkRat`. -/
def qNeg (a : Rat) : Rat := mkRat (-a.num) a.den

/-- Rational subtraction through `mkRat`. -/
def qSub (a b : Rat) : Rat := qAdd a (qNeg b)

/-- Rational multiplication through `mkRat`. -/
def qMul (a b : Rat) : Rat := mkRat (a.num * b.num) (a.den * b.den)

/-- Rational division through `mkRat` (0 when the divisor is 0, like
`Rat.div`; all call sites guard the zero case as the source does). -/
def qDiv (a b : Rat) : Rat := mkRat (a.num * b.den * b.num.sign) (a.den * b.num.natAbs)

/-- Embed an integer as a rational. -/
def qOfInt (i : Int) : Rat := mkRat i 1

/-- Python's float modulo: `a % b = a - b * floor(a / b)`. -/
def qMod (a b : Rat) : Rat := qSub a (qMul b (qOfInt (qDiv a b).floor))

/-- Absolute value. -/
def qAbs (a : Rat) : Rat := mkRat (Int.ofNat a.num.natAbs) a.den

/-- Length of the common prefix of two character lists. -/
def commonPrefixLen : List Char → List Char → Nat
  | a :: as, b :: bs => if a = b then commonPrefixLen as bs + 1 else 0
  | _, _ => 0

/-- All suffixes of a character list, tagged with their start index. -/
def suffixesAux (i : Nat) : List Char → List (Nat × List Char)
  | [] => [(i, [])]
  | c :: cs => (i, c :: cs) :: suffixesAux (i + 1) cs

/-- All candidate matching blocks `(i, j, size)` between two character
lists, ordered by `i` then `j`. -/
def matchCandidates (a b : List Char) : List (Nat × Nat × Nat) :=
  (suffixesAux 0 a).flatMap (fun p =>
    (suffixesAux 0 b).map (fun q => (p.1, q.1, commonPrefixLen p.2 q.2)))

/-- The longest matching block, earliest in `a` then earliest in `b` on
ties.  Models difflib's `find_longest_match` (the autojunk heuristic never
fires on short column names). -/
def pickBestBlock (l : List (Nat × Nat × Nat)) : Nat × Nat × Nat :=
  l.foldl (fun best c => if c.2.2 > best.2.2 then c else best) (0, 0, 0)

/-- Total number of matched characters over all matching blocks, as in
difflib's `get_matching_blocks`: take the longest block, then recurse on
the pieces to its left and to its right.  Fuel-based so the definition is
structural and evaluates by kernel reduction; the top-level call supplies
fuel `a.length + b.length + 1`, which dominates the recursion depth. -/
def matchTotalFuel : Nat → List Char → List Char → Nat
  | 0, _, _ => 0
  | fuel + 1, a, b =>
      let t := pickBestBlock (matchCandidates a b)
      if t.2.2 = 0 then 0
      else t.2.2 + matchTotalFuel fuel (a.take t.1) (b.take t.2.1)
            + matchTotalFuel fuel (a.drop (t.1 + t.2.2)) (b.drop (t.2.1 + t.2.2))

/-- Models `SequenceMatcher(None, a, b).ratio()`: twice the matched characters over
the total length (1 when both strings are empty, as in difflib). -/
def similarityScore (a b : String) : Rat :=
  let la := a.toList
  let lb := b.toList
  if la.length + lb.length = 0 then 1
  else mkRat (Int.ofNat (2 * matchTotalFuel (la.length + lb.length + 1) la lb))
        (la.length + lb.length)

/-- Stable descending insertion (equal scores keep earlier elements first),
mirroring Python's stable `sorted(..., reverse=True)`. -/
def insertDescStable (score : String → Rat) (x : String) : List String → List String
  | [] => [x]
  | y :: ys => if score y < score x then x :: y :: ys else y :: insertDescStable score x ys

/-- Stable sort by descending score. -/
def sortDescStable (score : String → Rat) (l : List String) : List String :=
  l.foldl (fun acc x => insertDescStable score x acc) []

/-- Models `suggest_column_mapping` (`data_processors.py:133-140`), single-name
case: the target columns whose case-normalized similarity to the source
reaches the threshold, most similar first. -/
def suggest_column_mapping (source : String) (targets : List String)
    (threshold : Rat) : List String :=
  let score := fun t => similarityScore (strLower source) (strLower t)
  sortDescStable score (targets.filter (fun t => decide (threshold ≤ score t)))

/-- One step of the multi-name case of `suggest_column_mapping`: the best
target for one source name (strictly improving fold, first maximum wins,
accepted only at or above the threshold). -/
def bestMatchFor (src : String) (targets : List String) (threshold : Rat) :
    Option String :=
  (targets.foldl
    (fun acc tgt =>
      let s := similarityScore (strLower src) (strLower tgt)
      if acc.2 < s ∧ threshold ≤ s then (some tgt, s) else acc)
    ((none : Option String), (0 : Rat))).1

/-- Ordered-dict update: overwrite the value of an existing key in place,
else append the pair. -/
def assocSet (l : List (String × String)) (k v : String) : List (String × String) :=
  if l.any (fun p => p.1 == k) then
    l.map (fun p => if p.1 = k then (k, v) else p)
  else l ++ [(k, v)]

/-- Models `suggest_column_mapping` (`data_processors.py:143-160`), multi-name
case: each source name is mapped to its best-scoring candidate above the
threshold, independently. -/
def suggest_column_mapping_multi (source targets : List String)
    (threshold : Rat) : List (String × String) :=
  source.foldl
    (fun acc src =>
      match bestMatchFor src targets threshold with
      | some tgt => assocSet acc src tgt
      | none => acc)
    []

/-- The three merge strategies of the merge-method radio control. -/
inductive MergeMethod where
  | append
  | join
  | smart
deriving DecidableEq, Repr

/-- The join kinds (`outer`/`inner`/`left`). -/
inductive JoinType where
  | outer
  | inner
  | left
deriving DecidableEq, Repr

/-- The fill methods of the advanced options (`"None (keep NaN)"`,
`"Zero"`, ...). -/
inductive FillMethod where
  | noneKeepNaN
  | zero
  | mean
  | median
  | mode
  | forwardFill
  | backwardFill
  | customValue
deriving DecidableEq, Repr

/-- The options dictionary built by `render_merge_options`
(`file_merger.py:227-239`).  In Python this is a mutable dict; mutation is
modelled by threading the value through `process_files`. -/
structure MergeOptions where
  merge_method : MergeMethod
  join_key : Option String
  join_type : JoinType
  matching_columns : Bool
  output_filename : String
  ignore_case : Bool
  handle_duplicates : Bool
  fill_missing : Bool
  fill_method : FillMethod
  fill_value : Option String
  matching_threshold : Nat
deriving DecidableEq, Repr

/-- Python truthiness of the optional join key (`None` and `""` are falsy). -/
def optTruthy : Option String → Bool
  | none => false
  | some s => decide (s ≠ "")

/-- The join key as a string (empty when absent). -/
def joinKeyStr (o : MergeOptions) : String := (o.join_key.getD "")

/-- The in-place mutation `options["join_key"] = options["join_key"].lower()`
performed under `if options["ignore_case"]:` at `file_merger.py:287-288`. -/
def lowerJoinKey (o : MergeOptions) : MergeOptions :=
  if o.ignore_case ∧ optTruthy o.join_key then
    { o with join_key := o.join_key.map strLower }
  else o

/-- Outcome of `FileMerger.load_data` for one uploaded file: an error
message (size, unsupported-format, read or empty failures) or the loaded
table together with the file name. -/
inductive LoadResult where
  | failure (msg : String)
  | table (name : String) (df : DataFrame)
deriving DecidableEq, Repr

/-- The error diagnostics accumulated by `process_files` (rendered as
message strings by the Python code). -/
inductive MergeError where
  | noFilesUploaded
  | noJoinKeySpecified
  | loadError (msg : String)
  | missingKeyColumn (fileName : String) (key : String)
  | similarColumnsFound (suggestions : List String)
  | noValidDataframes
deriving DecidableEq, Repr

/-- The `df is not None and not df.empty` guard (`file_merger.py:281`):
pandas `DataFrame.empty` is true when either axis has length 0. -/
def dfNonEmpty (d : DataFrame) : Bool := !(d.rows.isEmpty) && !(d.cols.isEmpty)

/-- The file-loading loop of `process_files` (`file_merger.py:269-305`),
parameterized by the `load_data` outcome of each file.  Returns the loaded
(and case-normalized) tables with their file names, the accumulated error
diagnostics, and the final state of the mutated-in-place options. -/
def loadLoop (files : List LoadResult) (opts : MergeOptions) :
    List (String × DataFrame) × List MergeError × MergeOptions :=
  match files with
  | [] => ([], [], opts)
  | .failure msg :: rest =>
      let t := loadLoop rest opts
      (t.1, .loadError msg :: t.2.1, t.2.2)
  | .table name df :: rest =>
      if dfNonEmpty df then
        let df1 := if opts.ignore_case then lowerCols df else df
        let opts1 := lowerJoinKey opts
        if opts1.merge_method = .join ∧ joinKeyStr opts1 ∉ df1.cols then
          let sims := suggest_column_mapping (joinKeyStr opts1) df1.cols (mkRat 4 5)
          let es0 := MergeError.missingKeyColumn name (joinKeyStr opts1) ::
            (if sims.isEmpty then [] else [MergeError.similarColumnsFound (sims.take 3)])
          let t := loadLoop rest opts1
          (t.1, es0 ++ t.2.1, t.2.2)
        else
          let t := loadLoop rest opts1
          ((name, df1) :: t.1, t.2.1, t.2.2)
      else
        loadLoop rest opts

/-- Is the cell the missing-marker. -/
def cellIsNA : Cell → Bool
  | .na => true
  | _ => false

/-- Models `fillna` on one cell. -/
def fillCell (v : Cell) (c : Cell) : Cell := if cellIsNA c then v else c

/-- Is the cell numeric. -/
def isNumCell : Cell → Bool
  | .num _ => true
  | _ => false

/-- Numeric value of a cell, when it has one. -/
def cellNum : Cell → Option Rat
  | .num q => some q
  | _ => none

/-- pandas `select_dtypes(include=[np.number])` column test: in this model
a column is numeric when every cell is numeric or missing. -/
def isNumericColumn (col : List Cell) : Bool :=
  col.all (fun c => cellIsNA c || isNumCell c)

/-- The numeric values of a column (missing cells skipped). -/
def colNums (col : List Cell) : List Rat := col.filterMap cellNum

/-- Sum of a list of rationals. -/
def qSum (l : List Rat) : Rat := l.foldl qAdd 0

/-- Models `Series.mean()` (missing cells skipped; `none` when no values, in
which case `fillna(NaN)` below is a no-op, as in pandas). -/
def colMean (col : List Cell) : Option Rat :=
  let ns := colNums col
  if ns.isEmpty then none
  else some (qDiv (qSum ns) (qOfInt (Int.ofNat ns.length)))

/-- Ascending insertion for rationals. -/
def insertAscQ (x : Rat) : List Rat → List Rat
  | [] => [x]
  | y :: ys => if decide (x ≤ y) then x :: y :: ys else y :: insertAscQ x ys

/-- Ascending sort for rationals. -/
def sortAscQ (l : List Rat) : List Rat := l.foldr insertAscQ []

/-- Models `Series.median()`: middle of the sorted non-missing values, average of
the two middles for even counts. -/
def colMedian (col : List Cell) : Option Rat :=
  let ns := sortAscQ (colNums col)
  let n := ns.length
  if n = 0 then none
  else if n % 2 = 1 then some (ns.getD (n / 2) 0)
  else some (qDiv (qAdd (ns.getD (n / 2 - 1) 0) (ns.getD (n / 2) 0)) (qOfInt 2))

/-- Rank used to order cells of different kinds (a modelling choice for
`Series.mode()` on mixed columns; single-typed columns order naturally). -/
def cellKindRank : Cell → Nat
  | .na => 0
  | .num _ => 1
  | .str _ => 2
  | .timestamp .. => 3
  | .cat _ => 4
  | .obj _ => 5

/-- Strict order on cells: by value within one kind, by kind across kinds. -/
def cellLt (a b : Cell) : Bool :=
  match a, b with
  | .num x, .num y => decide (x < y)
  | .str x, .str y => decide (x < y)
  | .cat i, .cat j => decide (i < j)
  | .timestamp y1 m1 d1 h1 mi1 s1, .timestamp y2 m2 d2 h2 mi2 s2 =>
      if y1 ≠ y2 then decide (y1 < y2)
      else if m1 ≠ m2 then decide (m1 < m2)
      else if d1 ≠ d2 then decide (d1 < d2)
      else if h1 ≠ h2 then decide (h1 < h2)
      else if mi1 ≠ mi2 then decide (mi1 < mi2)
      else decide (s1 < s2)
  | x, y => decide (cellKindRank x < cellKindRank y)

/-- Ascending insertion for cells. -/
def insertAscCell (x : Cell) : List Cell → List Cell
  | [] => [x]
  | y :: ys => if cellLt y x then y :: insertAscCell x ys else x :: y :: ys

/-- Ascending sort for cells. -/
def sortAscCells (l : List Cell) : List Cell := l.foldr insertAscCell []

/-- Number of occurrences of a cell value in a list. -/
def countCell (l : List Cell) (x : Cell) : Nat := (l.filter (fun y => y == x)).length

/-- Models `Series.mode()[0]`: the smallest among the most frequent non-missing
values (`none` when the column has none, in which case the code fills with
`np.nan`, a no-op). -/
def colMode (col : List Cell) : Option Cell :=
  let vs := col.filter (fun c => !(cellIsNA c))
  let maxCount := (vs.map (countCell vs)).foldl Nat.max 0
  if maxCount = 0 then none
  else (sortAscCells (vs.filter (fun v => decide (countCell vs v = maxCount)))).head?

/-- Forward fill of one column, carrying the last non-missing value. -/
def ffillAux (last : Cell) : List Cell → List Cell
  | [] => []
  | c :: cs => if cellIsNA c then last :: ffillAux last cs else c :: ffillAux c cs

/-- Models `fillna(method='ffill')` on one column. -/
def ffillCol (col : List Cell) : List Cell := ffillAux Cell.na col

/-- Models `fillna(method='bfill')` on one column. -/
def bfillCol (col : List Cell) : List Cell := (ffillAux Cell.na col.reverse).reverse

/-- Column `i` of a table. -/
def getColByIdx (d : DataFrame) (i : Nat) : List Cell :=
  d.rows.map (fun r => r.getD i Cell.na)

/-- Rebuild a table by transforming each column independently (the result
of `f` must keep the column length). -/
def mapColumns (d : DataFrame) (f : Nat → List Cell → List Cell) : DataFrame :=
  let colsList := (List.range d.cols.length).map (fun i => f i (getColByIdx d i))
  { cols := d.cols
  , rows := (List.range d.rows.length).map
      (fun r => colsList.map (fun col => col.getD r Cell.na)) }

/-- Digits of a numeral string as a natural number. -/
def parseDigits (cs : List Char) : Nat := cs.foldl (fun n c => n * 10 + (c.toNat - 48)) 0

/-- Python `str.isdigit` on a character list (ASCII digits; non-empty). -/
def allDigits (cs : List Char) : Bool := !cs.isEmpty && cs.all (fun c => c.isDigit)

/-- Models `v.replace('.', '', 1)`. -/
def removeFirstDot : List Char → List Char
  | [] => []
  | c :: cs => if c = '.' then cs else c :: removeFirstDot cs

/-- Split a numeral at its first dot. -/
def splitAtDot : List Char → List Char × Option (List Char)
  | [] => ([], none)
  | c :: rest =>
      if c = '.' then ([], some rest)
      else
        let t := splitAtDot rest
        (c :: t.1, t.2)

/-- Decimal parse of a digits-and-one-dot numeral. -/
def parseDecimal (cs : List Char) : Rat :=
  let t := splitAtDot cs
  match t.2 with
  | none => qOfInt (Int.ofNat (parseDigits t.1))
  | some f => mkRat (Int.ofNat (parseDigits t.1 * 10 ^ f.length + parseDigits f)) (10 ^ f.length)

/-- The custom fill value: Python attempts
`float(v) if v.replace('.', '', 1).isdigit() else v`
(`file_merger.py:338`), so a numeric-looking string fills as a number and
anything else fills as text. -/
def parseFillValue (v : String) : Cell :=
  let cs := v.toList
  if allDigits (removeFirstDot cs) then Cell.num (parseDecimal cs) else Cell.str v

/-- The missing-value filling of `process_files` (`file_merger.py:319-341`)
for one table, by fill method.  (`fillna` with a missing value, which
pandas treats as a no-op, models the degenerate mean/median/mode cases; a
`customValue` fill with no supplied value is modelled as a no-op.) -/
def fillDataFrame (method : FillMethod) (fillValue : Option String) (d : DataFrame) : DataFrame :=
  match method with
  | .noneKeepNaN => d
  | .zero => mapColumns d (fun _ col => col.map (fillCell (Cell.num 0)))
  | .mean => mapColumns d (fun _ col =>
      if isNumericColumn col then
        col.map (fillCell (((colMean col).map Cell.num).getD Cell.na))
      else col)
  | .median => mapColumns d (fun _ col =>
      if isNumericColumn col then
        col.map (fillCell (((colMedian col).map Cell.num).getD Cell.na))
      else col)
  | .mode => mapColumns d (fun _ col => col.map (fillCell ((colMode col).getD Cell.na)))
  | .forwardFill => mapColumns d (fun _ col => ffillCol col)
  | .backwardFill => mapColumns d (fun _ col => bfillCol col)
  | .customValue => mapColumns d (fun _ col =>
      col.map (fillCell ((fillValue.map parseFillValue).getD Cell.na)))

/-- Models `drop_duplicates()` over full rows, keeping first occurrences. -/
def dropDupRowsAux (seen : List (List Cell)) : List (List Cell) → List (List Cell)
  | [] => []
  | r :: rs =>
      if r ∈ seen then dropDupRowsAux seen rs
      else r :: dropDupRowsAux (r :: seen) rs

/-- Models `df.drop_duplicates()`. -/
def dropDupAll (d : DataFrame) : DataFrame :=
  { cols := d.cols, rows := dropDupRowsAux [] d.rows }

/-- Models `drop_duplicates(subset=[key])`, keeping first occurrences by key cell. -/
def dropDupKeyAux (cols : List String) (key : String) (seen : List Cell) :
    List (List Cell) → List (List Cell)
  | [] => []
  | r :: rs =>
      let k := rowCell cols r key
      if k ∈ seen then dropDupKeyAux cols key seen rs
      else r :: dropDupKeyAux cols key (k :: seen) rs

/-- Models `df.drop_duplicates(subset=[options["join_key"]])`. -/
def dropDupByKey (d : DataFrame) (key : String) : DataFrame :=
  { cols := d.cols, rows := dropDupKeyAux d.cols key [] d.rows }

/-- The per-table preprocessing of `process_files` before merging
(`file_merger.py:317-357`): fill missing values when requested, then drop
duplicates (on the key column when joining and present, on all columns
otherwise). -/
def preprocessTable (o : MergeOptions) (d : DataFrame) : DataFrame :=
  let d1 :=
    if o.fill_missing ∧ o.fill_method ≠ FillMethod.noneKeepNaN then
      fillDataFrame o.fill_method o.fill_value d
    else d
  if o.handle_duplicates then
    match o.join_key with
    | some k =>
        if o.merge_method = MergeMethod.join ∧ k ∈ d1.cols then dropDupByKey d1 k
        else dropDupAll d1
    | none => dropDupAll d1
  else d1

/-- The pandas suffix rule of `pd.merge(..., suffixes=(None, sfx))`: a
non-key column of the right table that collides with a left column gets
the suffix; the left column keeps its name. -/
def renameRightCol (leftCols : List String) (key : String) (sfx : String) (c : String) : String :=
  if c ≠ key ∧ c ∈ leftCols then c ++ sfx else c

/-- The non-key columns of the right table of a merge. -/
def rightDataCols (right : DataFrame) (key : String) : List String :=
  right.cols.filter (fun c => !(c == key))

/-- One `pd.merge(left, right, on=key, how=..., suffixes=(None, sfx))`:
rows are matched on equal key cells; `outer` keeps unmatched rows of both
sides, `left` keeps unmatched left rows, `inner` keeps only matches.
(The exact interleaving order pandas uses for unmatched right rows is not
relied upon by any theorem.) -/
def mergeOnKey (left right : DataFrame) (key : String) (how : JoinType) (sfx : String) :
    DataFrame :=
  let rdata := rightDataCols right key
  let outCols := left.cols ++ rdata.map (renameRightCol left.cols key sfx)
  let matched := left.rows.flatMap (fun lr =>
    let k := rowCell left.cols lr key
    let ms := right.rows.filter (fun rr => rowCell right.cols rr key == k)
    if ms.isEmpty then
      match how with
      | .inner => []
      | _ => [lr ++ rdata.map (fun _ => Cell.na)]
    else ms.map (fun rr => lr ++ rdata.map (rowCell right.cols rr)))
  let extra :=
    match how with
    | .outer =>
        (right.rows.filter (fun rr =>
          !(left.rows.any (fun lr =>
            rowCell left.cols lr key == rowCell right.cols rr key)))).map
          (fun rr =>
            left.cols.map (fun c => if c = key then rowCell right.cols rr key else Cell.na)
              ++ rdata.map (rowCell right.cols rr))
    | _ => []
  { cols := outCols, rows := matched ++ extra }

/-- The sequential join of `process_files` (`file_merger.py:405-412`):
start from the first table and merge each subsequent table in, suffixing
collisions with `_<index>` (1-based). -/
def joinFold (dfs : List DataFrame) (key : String) (how : JoinType) : DataFrame :=
  match dfs with
  | [] => ⟨[], []⟩
  | d :: rest =>
      (rest.foldl
        (fun (acc : DataFrame × Nat) d2 =>
          (mergeOnKey acc.1 d2 key how ("_" ++ toString acc.2), acc.2 + 1))
        (d, 1)).1

/-- The fuzzy column-matching preprocessing of the Join branch
(`file_merger.py:371-394`): rename the columns of each later table to
their reconciler matches against the first table's columns. -/
def applyFuzzyRenames (dfs : List DataFrame) (threshold : Rat) : List DataFrame :=
  match dfs with
  | [] => []
  | d0 :: rest =>
      d0 :: rest.map (fun d =>
        let mapping := suggest_column_mapping_multi d0.cols d.cols threshold
        let renameDict := mapping.foldl
          (fun acc p => if p.1 ≠ p.2 then assocSet acc p.2 p.1 else acc) []
        { cols := d.cols.map (fun c =>
            ((renameDict.find? (fun q => q.1 == c)).map Prod.snd).getD c)
        , rows := d.rows })

/-- The display messages of the Smart branch, as structured diagnostics
(`st.info`/`st.warning`/`st.success` at `file_merger.py:416-469`). -/
inductive SmartDiag where
  | analyzing
  | singleFileInfo
  | noCommonColumnsWarning
  | noSuitableKeyWarning
  | selectedKeyInfo (c : String)
  | mergeSuccess
deriving DecidableEq, Repr

/-- Models `set.intersection(*[set(df.columns) for df in dfs])` as an ordered
list: the columns of the first table that occur in every other table
(list emptiness coincides with set emptiness). -/
def commonCols : List DataFrame → List String
  | [] => []
  | d :: ds => ds.foldl (fun acc d2 => acc.filter (fun c => decide (c ∈ d2.cols))) d.cols

/-- The non-missing values of a column. -/
def nonNAValues (d : DataFrame) (c : String) : List Cell :=
  (colValues d c).filter (fun x => !(cellIsNA x))

/-- The key-candidate test of the Smart branch
(`df[col].nunique() == len(df[col].dropna())` for every table): the
non-missing values of the column are pairwise distinct in each table. -/
def isCandidateKey (dfs : List DataFrame) (c : String) : Bool :=
  dfs.all (fun d => decide (nonNAValues d c).Nodup)

/-- The Smart-merge branch of `process_files` (`file_merger.py:416-469`):
a single table is returned unchanged; with no common column the tables are
appended with a warning; otherwise the first candidate key column is
outer-joined on, or, with no candidate, the tables are appended with a
warning.  (The source iterates a Python set here; this model fixes the
first-table column order, a determinism choice the spec itself flags.) -/
def smartMergeStage (dfs : List DataFrame) : DataFrame × List SmartDiag :=
  match dfs with
  | [] => (⟨[], []⟩, [])
  | [d] => (d, [.analyzing, .singleFileInfo])
  | _ =>
      let common := commonCols dfs
      if common.isEmpty then
        (concatTables dfs, [.analyzing, .noCommonColumnsWarning])
      else
        match common.filter (isCandidateKey dfs) with
        | [] => (concatTables dfs, [.analyzing, .noSuitableKeyWarning])
        | key :: _ =>
            (joinFold dfs key JoinType.outer,
              [.analyzing, .selectedKeyInfo key, .mergeSuccess])

/-- Models `FileMerger.process_files` (`file_merger.py:241-478`): load all files,
accumulate per-file diagnostics (excluding each failing table), fail when
any diagnostic was produced, otherwise preprocess and merge by the chosen
strategy.  Returns the merged table (or `none`), the error list (or
`none`, mirroring the Python `(df, None)`/`(None, errors)` convention),
and the final state of the in-place-mutated options dictionary. -/
def process_files (files : List LoadResult) (opts : MergeOptions) :
    Option DataFrame × Option (List MergeError) × MergeOptions :=
  if files.isEmpty then (none, some [.noFilesUploaded], opts)
  else if opts.merge_method = MergeMethod.join ∧ !(optTruthy opts.join_key) then
    (none, some [.noJoinKeySpecified], opts)
  else
    let t := loadLoop files opts
    let namedDfs := t.1
    let errs := t.2.1
    let opts1 := t.2.2
    if !errs.isEmpty then (none, some errs, opts1)
    else if !namedDfs.isEmpty then
      let dfs := (namedDfs.map Prod.snd).map (preprocessTable opts1)
      let merged :=
        match opts1.merge_method with
        | .append => concatTables dfs
        | .join =>
            let dfs2 :=
              if opts1.matching_columns then
                applyFuzzyRenames dfs (mkRat (Int.ofNat opts1.matching_threshold) 100)
              else dfs
            joinFold dfs2 (joinKeyStr opts1) opts1.join_type
        | .smart => (smartMergeStage dfs).1
      (some merged, none, opts1)
    else (none, some [.noValidDataframes], opts1)

/-- The error diagnostics the loading loop produces for one file,
stated against the request's original options (self-normalizing through
`lowerJoinKey`); used to characterize the full accumulated error list. -/
def fileLoadErrors (o : MergeOptions) (f : LoadResult) : List MergeError :=
  match f with
  | .failure msg => [.loadError msg]
  | .table name df =>
      if dfNonEmpty df then
        let df1 := if o.ignore_case then lowerCols df else df
        let o1 := lowerJoinKey o
        if o1.merge_method = MergeMethod.join ∧ joinKeyStr o1 ∉ df1.cols then
          let sims := suggest_column_mapping (joinKeyStr o1) df1.cols (mkRat 4 5)
          MergeError.missingKeyColumn name (joinKeyStr o1) ::
            (if sims.isEmpty then [] else [MergeError.similarColumnsFound (sims.take 3)])
        else []
      else []

/-- All fields of the options are preserved except that the join key may
have been overwritten by its lower-cased form. -/
def optionsFramePreserved (o o' : MergeOptions) : Prop :=
  o'.merge_method = o.merge_method
  ∧ o'.join_type = o.join_type
  ∧ o'.matching_columns = o.matching_columns
  ∧ o'.output_filename = o.output_filename
  ∧ o'.ignore_case = o.ignore_case
  ∧ o'.handle_duplicates = o.handle_duplicates
  ∧ o'.fill_missing = o.fill_missing
  ∧ o'.fill_method = o.fill_method
  ∧ o'.fill_value = o.fill_value
  ∧ o'.matching_threshold = o.matching_threshold
  ∧ (o'.join_key = o.join_key ∨ o'.join_key = o.join_key.map strLower)

/-- A concrete Join-strategy options value (upper-case join key, case
normalization on) used by witnesses and counterexamples. -/
def sampleJoinOptions : MergeOptions :=
  { merge_method := .join
  , join_key := some "ID"
  , join_type := .outer
  , matching_columns := false
  , output_filename := "merged"
  , ignore_case := true
  , handle_duplicates := false
  , fill_missing := false
  , fill_method := .noneKeepNaN
  , fill_value := none
  , matching_threshold := 80 }

/-- A concrete Append-strategy options value used by witnesses and
counterexamples. -/
def sampleAppendOptions : MergeOptions :=
  { merge_method := .append
  , join_key := none
  , join_type := .outer
  , matching_columns := false
  , output_filename := "merged"
  , ignore_case := false
  , handle_duplicates := false
  , fill_missing := false
  , fill_method := .noneKeepNaN
  , fill_value := none
  , matching_threshold := 80 }

/-- Models `pd.to_numeric(..., errors='coerce')` on one cell: numeric cells keep
their value, everything else becomes the missing-marker.  (Conversion of
numeric-looking text is outside this model's scope; the claims exercise
numeric and missing cells only.) -/
def toNumericCell : Cell → Cell
  | .num q => .num q
  | _ => .na

/-- Natural-number power by repeated multiplication. -/
def qPowNat (a : Rat) : Nat → Rat
  | 0 => 1
  | n + 1 => qMul a (qPowNat a n)

/-- Integer power. -/
def qPowInt (a : Rat) (i : Int) : Rat :=
  match i with
  | .ofNat n => qPowNat a n
  | .negSucc n => qDiv 1 (qPowNat a (n + 1))

/-- Elementwise binary arithmetic on cells: missing operands propagate the
missing-marker, as NaN does in pandas. -/
def cellBin (f : Rat → Rat → Rat) : Cell → Cell → Cell
  | .num a, .num b => .num (f a b)
  | _, _ => .na

/-- Cell-level power: exact for integer exponents; a fractional exponent
(generally irrational in the reals) is modelled as the missing-marker. -/
def cellPow : Cell → Cell → Cell
  | .num a, .num b => if b.den = 1 then .num (qPowInt a b.num) else .na
  | _, _ => .na

/-- The arithmetic operators of the Math Operation transformer. -/
inductive MathOp where
  | add
  | sub
  | mul
  | div
  | mod
  | pow
deriving DecidableEq, Repr

/-- Parameters of the `basic` operation branch of
`MathOperationTransformer.transform` (`numeric_transformer.py:457-521`). -/
structure MathBasicParams where
  column1 : String
  operator : MathOp
  column2 : Option String
  value : Rat
  use_value : Bool
  target_column : String
deriving DecidableEq, Repr

/-- The `basic` operation branch of `MathOperationTransformer.transform`
(`numeric_transformer.py:457-521`): checks, then the arithmetic with the
literal value (`use_value or not column2`) or the second column, with the
source's special division/modulo-by-zero handling; errors raised inside
the `try` are re-raised wrapped in the math-operation message.  (The
`function` and `aggregate` branches are outside the claims and are not
embedded.) -/
def mathOperation_transform_basic (df : DataFrame) (p : MathBasicParams) :
    Except String DataFrame :=
  if p.column1 ∉ df.cols then
    Except.error ("Column " ++ p.column1 ++ " not found in dataframe")
  else if p.target_column = "" then
    Except.error "Target column name cannot be empty"
  else
    let col1Data := (colValues df p.column1).map toNumericCell
    if p.use_value || !(optTruthy p.column2) then
      match p.operator with
      | .add => .ok (setColumn df p.target_column
          (col1Data.map (fun c => cellBin qAdd c (Cell.num p.value))))
      | .sub => .ok (setColumn df p.target_column
          (col1Data.map (fun c => cellBin qSub c (Cell.num p.value))))
      | .mul => .ok (setColumn df p.target_column
          (col1Data.map (fun c => cellBin qMul c (Cell.num p.value))))
      | .div =>
          if p.value = 0 then
            .error "Error performing math operation: Cannot divide by zero"
          else .ok (setColumn df p.target_column
            (col1Data.map (fun c => cellBin qDiv c (Cell.num p.value))))
      | .mod =>
          if p.value = 0 then
            .error "Error performing math operation: Cannot take modulo by zero"
          else .ok (setColumn df p.target_column
            (col1Data.map (fun c => cellBin qMod c (Cell.num p.value))))
      | .pow => .ok (setColumn df p.target_column
          (col1Data.map (fun c => cellPow c (Cell.num p.value))))
    else
      let c2 := p.column2.getD ""
      if c2 ∉ df.cols then
        .error ("Error performing math operation: Column " ++ c2 ++ " not found in dataframe")
      else
        let op2 := (colValues df c2).map toNumericCell
        match p.operator with
        | .add => .ok (setColumn df p.target_column
            (List.zipWith (cellBin qAdd) col1Data op2))
        | .sub => .ok (setColumn df p.target_column
            (List.zipWith (cellBin qSub) col1Data op2))
        | .mul => .ok (setColumn df p.target_column
            (List.zipWith (cellBin qMul) col1Data op2))
        | .div =>
            let divOp := op2.map (fun c => if c == Cell.num 0 then Cell.na else c)
            .ok (setColumn df p.target_column (List.zipWith (cellBin qDiv) col1Data divOp))
        | .mod =>
            let modOp := op2.map (fun c => if c == Cell.num 0 then Cell.na else c)
            .ok (setColumn df p.target_column (List.zipWith (cellBin qMod) col1Data modOp))
        | .pow => .ok (setColumn df p.target_column (List.zipWith cellPow col1Data op2))

/-- A category of a binned (categorical) column: an interval between two
consecutive bin edges, or a user-supplied label. -/
inductive BinCategory where
  | interval (lo hi : Rat)
  | label (s : String)
deriving DecidableEq, Repr

/-- The categories `pd.cut` attaches to its output: the consecutive-edge
intervals, or the user labels when supplied. -/
def pdCutCategories (edges : List Rat) (labels : Option (List String)) : List BinCategory :=
  match labels with
  | some ls => ls.map BinCategory.label
  | none => (edges.zip edges.tail).map (fun p => BinCategory.interval p.1 p.2)

/-- Index of the bin containing `x` among consecutive edge pairs:
right-inclusive bins `(a, b]` (first bin `[a, b]` via `include_lowest`)
or left-inclusive bins `[a, b)`. -/
def binIndexAux (includeRight : Bool) (isFirst : Bool) (i : Nat) :
    List Rat → Rat → Option Nat
  | e1 :: e2 :: rest, x =>
      let inBin :=
        if includeRight then
          (decide (e1 < x) || (isFirst && decide (e1 ≤ x))) && decide (x ≤ e2)
        else decide (e1 ≤ x) && decide (x < e2)
      if inBin then some i else binIndexAux includeRight false (i + 1) (e2 :: rest) x
  | _, _ => none

/-- Models `pd.cut(..., include_lowest=True, right=includeRight)` on one cell:
the categorical code of the containing bin, or the missing-marker for
missing/out-of-range values. -/
def pdCutCell (edges : List Rat) (includeRight : Bool) : Cell → Cell
  | .num q =>
      match binIndexAux includeRight true 0 edges q with
      | some i => .cat i
      | none => .na
  | _ => .na

/-- Parameters of the `custom`-edges branch of
`BinningTransformer.transform` (`numeric_transformer.py:238-290`); the bin
edges and labels arrive already split at commas, as the code's
`split(',')` produces them (an empty list models the falsy empty
string). -/
structure BinCustomParams where
  column : String
  custom_bins : List Rat
  labels : List String
  target_column : String
  include_right : Bool
deriving DecidableEq, Repr

/-- The `custom`-edges branch of `BinningTransformer.transform`
(`numeric_transformer.py:238-290`): column/target checks, the edge-count
and label-count validations, then `pd.cut` with the custom edges.  The
result carries the categorical's categories alongside the table (pandas
keeps them as the dtype of the new column).  Errors raised inside the
`try` are re-raised wrapped in the binning message. -/
def binningTransform_custom (df : DataFrame) (p : BinCustomParams) :
    Except String (DataFrame × List BinCategory) :=
  if p.column ∉ df.cols then
    Except.error ("Column " ++ p.column ++ " not found in dataframe")
  else if p.target_column = "" then
    Except.error "Target column name cannot be empty"
  else
    let numericData := (colValues df p.column).map toNumericCell
    if p.custom_bins = [] then
      .error "Error binning data: Custom bin edges must be provided"
    else if p.custom_bins.length < 2 then
      .error "Error binning data: At least 2 bin edges are required"
    else if p.labels ≠ [] ∧ p.labels.length ≠ p.custom_bins.length - 1 then
      .error "Error binning data: Number of labels must be one less than bin edges"
    else
      .ok (setColumn df p.target_column
            (numericData.map (pdCutCell p.custom_bins p.include_right)),
          pdCutCategories p.custom_bins (if p.labels = [] then none else some p.labels))

/-- Concrete Math Operation parameters: divide `x` by the column `d`. -/
def sampleDivByColumn : MathBasicParams :=
  { column1 := "x"
  , operator := .div
  , column2 := some "d"
  , value := 0
  , use_value := false
  , target_column := "ratio" }

/-- Concrete table for the division examples: divisor column `d` has a
zero in the second row. -/
def sampleDivTable : DataFrame :=
  ⟨["x", "d"], [[Cell.num 6, Cell.num 2], [Cell.num 5, Cell.num 0], [Cell.num 9, Cell.num 3]]⟩

/-- Concrete Math Operation parameters: remainder of `x` modulo the
column `d`. -/
def sampleModByColumn : MathBasicParams :=
  { column1 := "x"
  , operator := .mod
  , column2 := some "d"
  , value := 0
  , use_value := false
  , target_column := "remainder" }

/-- Concrete custom-binning parameters: the spec's age-group edges, no
labels. -/
def sampleBinParams : BinCustomParams :=
  { column := "age"
  , custom_bins := [0, 18, 35, 50, 65, 100]
  , labels := []
  , target_column := "age_group"
  , include_right := true }

/-- The candidate delimiters the Reader counts (`file_handlers.py:89`), in
source order. -/
def potentialDelimiters : List Char := [',', ';', '\t', '|']

/-- Occurrences of a character in a sample. -/
def countChar (sample : List Char) (c : Char) : Nat :=
  (sample.filter (fun x => x == c)).length

/-- Models `max(delimiter_counts, key=delimiter_counts.get)`: the first candidate
with the maximal count (Python's `max` keeps the earliest maximum). -/
def likelyDelimiter (sample : List Char) : Char :=
  potentialDelimiters.foldl
    (fun best d => if countChar sample d > countChar sample best then d else best) ','

/-- The delimiter detection of `read_file` (`file_handlers.py:82-96`): when
the caller supplies no delimiter, sample the first 4096 bytes (modelled at
character level), count the candidates, and pass the most frequent as
`sep` only when its count exceeds 5. -/
def read_file_detect_sep (content : List Char) : Option Char :=
  let sample := content.take 4096
  let likely := likelyDelimiter sample
  if countChar sample likely > 5 then some likely else none

/-- The delimiter `pd.read_csv` effectively uses: the detected one, else
the library's comma default. -/
def effectiveSep (content : List Char) : Char :=
  (read_file_detect_sep content).getD ','

/-- Is `h` a prefix of the second list. -/
def charsPrefixEq : List Char → List Char → Bool
  | [], _ => true
  | _ :: _, [] => false
  | a :: as, b :: bs => a == b && charsPrefixEq as bs

/-- Substring test on character lists. -/
def charsContains (hay needle : List Char) : Bool :=
  if charsPrefixEq needle hay then true
  else
    match hay with
    | [] => false
    | _ :: t => charsContains t needle

/-- Python's `needle in hay` substring test. -/
def strContains (hay needle : String) : Bool := charsContains hay.toList needle.toList

/-- Binary operators of the calculated-column expression language. -/
inductive PyBinOp where
  | add
  | sub
  | mul
  | div
deriving DecidableEq, Repr

/-- Abstract syntax of the fragment of Python expressions the
calculated-column evaluator receives: numeric and string literals, bare
identifiers, arithmetic, attribute access (`np.sqrt`, `np.fromfile`,
...), and single-argument calls.  `eval` runs arbitrary Python
expressions; the claims below are settled inside this fragment and
nothing is concluded from an expression falling outside it. -/
inductive PyExpr where
  | const (q : Rat)
  | strLit (s : String)
  | var (name : String)
  | binop (op : PyBinOp) (a b : PyExpr)
  | attr (obj : PyExpr) (field : String)
  | call (f : PyExpr) (arg : PyExpr)
deriving DecidableEq, Repr

/-- An expression as `create_calculated_column` receives it: the raw text
(the code's substring-based namespace filter reads it) together with its
parse (what `eval` executes). -/
structure Expression where
  text : String
  ast : PyExpr
deriving Repr

/-- The names an expression reads as bare identifiers. -/
def refVars : PyExpr → List String
  | .const _ => []
  | .strLit _ => []
  | .var n => [n]
  | .binop _ a b => refVars a ++ refVars b
  | .attr o _ => refVars o
  | .call f a => refVars f ++ refVars a

/-- The column entries of the local namespace `create_calculated_column`
builds (`data_processors.py:180`): the columns whose name occurs as a
SUBSTRING of the expression text (`col in expression` is Python's
substring test, not an identifier check). -/
def localNamespaceCols (df : DataFrame) (e : Expression) : List String :=
  df.cols.filter (fun c => strContains e.text c)

/-- Classification of the numpy-module attributes the embedding
interprets: element-wise routines with exact rational semantics;
real-valued routines (`np.sqrt`, `np.exp`, the logarithms and the
trigonometry) whose values the rational cell domain cannot represent and
which are therefore carried as uninterpreted functions supplied by the
host; and the routines that reach the host filesystem when called
(`np.fromfile`, `np.load`, ...).  The module has many more attributes;
the table below is a representative fragment, and no theorem concludes
anything from an attribute being absent from it. -/
inductive NpEntry where
  | elementwise (f : Rat → Rat)
  | floatRoutine
  | fileRoutine

/-- The attribute table of the numpy module object bound at `np`
(`local_dict["np"] = np` binds the ENTIRE module, `data_processors.py:183`):
exact element-wise arithmetic, the real-valued routines, and the
filesystem-reaching file routines. -/
def npModuleAttr (fld : String) : Option NpEntry :=
  if fld = "abs" then some (.elementwise qAbs)
  else if fld = "floor" then some (.elementwise (fun q => qOfInt q.floor))
  else if fld = "ceil" then some (.elementwise (fun q => qOfInt q.ceil))
  else if fld = "sign" then some (.elementwise (fun q => qOfInt q.num.sign))
  else if fld = "sqrt" ∨ fld = "exp" ∨ fld = "log" ∨ fld = "log10"
      ∨ fld = "sin" ∨ fld = "cos" ∨ fld = "tan" ∨ fld = "round" then
    some .floatRoutine
  else if fld = "fromfile" ∨ fld = "load" ∨ fld = "loadtxt"
      ∨ fld = "genfromtxt" ∨ fld = "memmap" ∨ fld = "save" ∨ fld = "savetxt" then
    some .fileRoutine
  else none

/-- A runtime value of the embedded evaluator: a column (a pandas
Series), a numeric scalar, a string, the numpy module object itself, or
a function object fetched from the module by attribute access. -/
inductive PyVal where
  | series (cells : List Cell)
  | scalar (q : Rat)
  | pystr (s : String)
  | npModule
  | npFunc (name : String) (entry : NpEntry)

/-- A host capability invoked during evaluation: the numpy module bound
in the namespace reaches the host filesystem when one of its file
routines is called (the routine name and the path argument are
recorded). -/
inductive HostEffect where
  | fsAccess (routine : String) (path : String)
deriving DecidableEq, Repr

/-- The host environment behind the evaluation: an interpretation of the
real-valued numpy routines (whose values the exact rational domain cannot
represent) and the outcome the filesystem hands a file routine (the data
read, or the raised OSError).  Every theorem below holds for every
host. -/
structure EvalHost where
  flt : String → Rat → Rat
  fsResult : String → String → Except String PyVal

/-- Semantics of a binary operator on numbers. -/
def opFun : PyBinOp → Rat → Rat → Rat
  | .add => qAdd
  | .sub => qSub
  | .mul => qMul
  | .div => qDiv

/-- A binary operator on runtime values: exact scalar arithmetic,
element-wise series arithmetic with scalar broadcasting (a missing
operand cell propagates the missing-marker), and string concatenation;
an operand without an arithmetic protocol (the module object, a function
object) raises a type error, as in Python. -/
def valBin : PyBinOp → PyVal → PyVal → Except String PyVal
  | op, .scalar a, .scalar b => .ok (.scalar (opFun op a b))
  | op, .series xs, .scalar b =>
      .ok (.series (xs.map (fun c => cellBin (opFun op) c (Cell.num b))))
  | op, .scalar a, .series ys =>
      .ok (.series (ys.map (fun c => cellBin (opFun op) (Cell.num a) c)))
  | op, .series xs, .series ys =>
      .ok (.series (List.zipWith (cellBin (opFun op)) xs ys))
  | .add, .pystr a, .pystr b => .ok (.pystr (a ++ b))
  | _, _, _ => .error "unsupported operand type"

/-- Application of a numeric routine to a value: element-wise over a
series (a non-numeric cell gives the missing-marker), direct on a
scalar; a string or object argument raises a type error. -/
def applyNumeric (f : Rat → Rat) : PyVal → Except String PyVal
  | .series xs => .ok (.series (xs.map (fun c =>
      match c with
      | Cell.num q => Cell.num (f q)
      | _ => Cell.na)))
  | .scalar q => .ok (.scalar (f q))
  | _ => .error "unsupported operand type"

/-- Evaluation of an expression over a namespace (the model of Python
`eval(expression, {"__builtins__": {}}, local_dict)`), returning the
value or the raised error together with the host capabilities invoked on
the way.  Bare names resolve only through the namespace (the empty
builtins dictionary leaves nothing else to find, so an unbound
identifier raises NameError); attribute access on the module object
exposes its whole attribute table, including the filesystem-reaching
file routines - calling one records a `HostEffect`, whatever the
filesystem then answers.  Attribute access on other values and calls of
non-function values are modelled as the attribute/call errors Python
raises (Series attributes are outside the embedded fragment). -/
def evalExpr (h : EvalHost) (ns : String → Option PyVal) :
    PyExpr → Except String PyVal × List HostEffect
  | .const q => (.ok (.scalar q), [])
  | .strLit s => (.ok (.pystr s), [])
  | .var n =>
      match ns n with
      | some v => (.ok v, [])
      | none => (.error ("name " ++ n ++ " is not defined"), [])
  | .binop op a b =>
      match evalExpr h ns a with
      | (.error m, ea) => (.error m, ea)
      | (.ok va, ea) =>
          match evalExpr h ns b with
          | (.error m, eb) => (.error m, ea ++ eb)
          | (.ok vb, eb) => (valBin op va vb, ea ++ eb)
  | .attr o fld =>
      match evalExpr h ns o with
      | (.error m, eo) => (.error m, eo)
      | (.ok v, eo) =>
          match v with
          | .npModule =>
              match npModuleAttr fld with
              | some entry => (.ok (.npFunc fld entry), eo)
              | none => (.error ("module numpy has no attribute " ++ fld), eo)
          | _ => (.error ("object has no attribute " ++ fld), eo)
  | .call f arg =>
      match evalExpr h ns f with
      | (.error m, ef) => (.error m, ef)
      | (.ok vf, ef) =>
          match evalExpr h ns arg with
          | (.error m, ea) => (.error m, ef ++ ea)
          | (.ok va, ea) =>
              match vf with
              | .npFunc fn entry =>
                  match entry with
                  | .elementwise g => (applyNumeric g va, ef ++ ea)
                  | .floatRoutine => (applyNumeric (h.flt fn) va, ef ++ ea)
                  | .fileRoutine =>
                      let path := match va with | .pystr s => s | _ => ""
                      (h.fsResult fn path, ef ++ ea ++ [HostEffect.fsAccess fn path])
              | _ => (.error "object is not callable", ef ++ ea)

/-- The full local namespace (`data_processors.py:180-183`): the
substring-filtered column Series, then `local_dict["np"] = np` binds the
entire numpy module under the name `np` (overwriting a column of that
name, as the later assignment does in the code). -/
def localNamespace (df : DataFrame) (e : Expression) : String → Option PyVal :=
  fun n =>
    if n = "np" then some PyVal.npModule
    else if n ∈ localNamespaceCols df e then some (PyVal.series (colValues df n))
    else none

/-- Broadcasting at the column assignment `result[column_name] = v`: a
series lands cell-wise, a scalar or string fills every row, and a bare
object (the module, a function object) is stored as an object column. -/
def broadcastVal (nRows : Nat) : PyVal → List Cell
  | .series cells => cells
  | .scalar q => List.replicate nRows (Cell.num q)
  | .pystr s => List.replicate nRows (Cell.str s)
  | .npModule => List.replicate nRows (Cell.obj "module numpy")
  | .npFunc fn _ => List.replicate nRows (Cell.obj ("numpy." ++ fn))

/-- Models `create_calculated_column` (`data_processors.py:164-191`): copy
the table, build the local namespace (the substring-filtered columns plus
the whole numpy module), evaluate the expression in it with empty
builtins, and assign the result column; any evaluation failure is
re-raised as an error carrying the underlying message and no table is
produced.  The second component observes the host capabilities the
evaluation invoked. -/
def create_calculated_column (h : EvalHost) (df : DataFrame) (columnName : String)
    (e : Expression) : Except String DataFrame × List HostEffect :=
  match evalExpr h (localNamespace df e) e.ast with
  | (.ok v, effs) => (.ok (setColumn df columnName (broadcastVal df.rows.length v)), effs)
  | (.error msg, effs) => (.error ("Error creating calculated column: " ++ msg), effs)

/-- A concrete host for the examples: the real-valued routines
interpreted as the identity and a filesystem answering every access with
the file-not-found error (the capability is invoked either way). -/
def sampleEvalHost : EvalHost :=
  { flt := fun _ q => q
  , fsResult := fun _ _ => Except.error "No such file or directory" }

/-- The expression of the capability counterexample:
`np.fromfile("secret.bin")`.  The namespace filter passes it with no
columns at all, and its evaluation reaches the host filesystem through
the `np` binding. -/
def fromfileExpr : Expression :=
  { text := "np.fromfile(\"secret.bin\")"
  , ast := PyExpr.call (PyExpr.attr (PyExpr.var "np") "fromfile")
      (PyExpr.strLit "secret.bin") }

/-!
A small heap of tables models Python object identity: callers hold table
ids, `df.copy()` allocates a fresh id, and in-place pandas mutation writes
to an id.  The copy-then-mutate discipline of the cleaning stage and the
transformers is stated and proved against this model.
-/

/-- The heap: table objects referenced by id; `next` is the next fresh id
(every live id is below it). -/
structure PyState where
  heap : Nat → DataFrame
  next : Nat

/-- Models `df.copy()`: allocate a fresh id holding a copy of table `i`. -/
def pyCopy (s : PyState) (i : Nat) : PyState × Nat :=
  ({ heap := fun j => if j = s.next then s.heap i else s.heap j, next := s.next + 1 },
    s.next)

/-- In-place mutation of the table at id `i`. -/
def pyWrite (s : PyState) (i : Nat) (d : DataFrame) : PyState :=
  { heap := fun j => if j = i then d else s.heap j, next := s.next }

/-- The options dictionary of `clean_dataframe` (defaults as the source's
`options.get` calls give them; `fill_method` is absent-able). -/
structure CleanOptions where
  ignore_case : Bool
  fill_method : Option FillMethod
  fill_value : Option String
  handle_duplicates : Bool
  join_key : Option String
deriving Repr

/-- The value-level cleaning of `clean_dataframe`
(`data_processors.py:16-75`): name normalization, then the selected fill,
then duplicate elimination (on the join-key column when one is supplied
and present, else on all columns).  A `customValue` fill with no supplied
value falls through as a no-op, as the source's `elif` chain does. -/
def clean_dataframe_pure (df : DataFrame) (o : CleanOptions) : DataFrame :=
  let r1 := if o.ignore_case then lowerCols df else df
  let r2 :=
    match o.fill_method with
    | none => r1
    | some m => if m ≠ FillMethod.noneKeepNaN then fillDataFrame m o.fill_value r1 else r1
  if o.handle_duplicates then
    match o.join_key with
    | some k => if k ≠ "" ∧ k ∈ r2.cols then dropDupByKey r2 k else dropDupAll r2
    | none => dropDupAll r2
  else r2

/-- Models `clean_dataframe` as a state transformer: `result = df.copy()`
(`data_processors.py:35`), every mutation hits the copy, and the copy's id
is returned. -/
def clean_dataframe (s : PyState) (i : Nat) (o : CleanOptions) : PyState × Nat :=
  let t := pyCopy s i
  (pyWrite t.1 t.2 (clean_dataframe_pure (t.1.heap t.2) o), t.2)

/-- Minimum of a list of rationals (0 for the empty list, which the call
sites exclude). -/
def colMinQ : List Rat → Rat
  | [] => 0
  | x :: xs => xs.foldl (fun m y => if decide (y < m) then y else m) x

/-- Maximum of a list of rationals. -/
def colMaxQ : List Rat → Rat
  | [] => 0
  | x :: xs => xs.foldl (fun m y => if decide (m < y) then y else m) x

/-- Newton iterations for the square root. -/
def ratSqrtNewton (q : Rat) : Nat → Rat → Rat
  | 0, x => x
  | n + 1, x => if x = 0 then 0 else ratSqrtNewton q n (qDiv (qAdd x (qDiv q x)) (qOfInt 2))

/-- Rational approximation of the square root (the model of the
floating-point `sqrt` inside `Series.std()`; no theorem depends on its
values). -/
def ratSqrt (q : Rat) : Rat := if decide (q ≤ 0) then 0 else ratSqrtNewton q 15 q

/-- Sample variance (`ddof=1`, as `Series.std()` uses; degenerate inputs
give 0, which the source's `std == 0` branch then handles). -/
def sampleVariance (ns : List Rat) : Rat :=
  let n := ns.length
  if n ≤ 1 then 0
  else
    let m := qDiv (qSum ns) (qOfInt (Int.ofNat n))
    qDiv (qSum (ns.map (fun x => qMul (qSub x m) (qSub x m)))) (qOfInt (Int.ofNat (n - 1)))

/-- The scaling methods of `NumericScalingTransformer`. -/
inductive ScalingMethod where
  | min_max
  | z_score
  | max_abs
  | custom_range
deriving DecidableEq, Repr

/-- Parameters of `NumericScalingTransformer.transform`. -/
structure ScalingParams where
  column : String
  method : ScalingMethod
  min_value : Rat
  max_value : Rat
  create_new_column : Bool
  new_column_name : String
deriving Repr

/-- The value-level scaling of `NumericScalingTransformer.transform`
(`numeric_transformer.py:81-158`): column and numeric-validity checks,
target-name resolution, then the selected scaling with the source's
degenerate-case handling. -/
def numericScaling_pure (df : DataFrame) (p : ScalingParams) : Except String DataFrame :=
  if p.column ∉ df.cols then
    Except.error ("Column " ++ p.column ++ " not found in dataframe")
  else
    let numericData := (colValues df p.column).map toNumericCell
    if numericData.all cellIsNA then
      Except.error ("Column " ++ p.column ++ " does not contain valid numeric data")
    else
      let autoName :=
        match p.method with
        | .min_max => p.column ++ "_scaled"
        | .z_score => p.column ++ "_zscore"
        | .max_abs => p.column ++ "_maxabs"
        | .custom_range => p.column ++ "_custom"
      let newName :=
        if p.create_new_column ∧ p.new_column_name = "" then autoName
        else p.new_column_name
      let target := if p.create_new_column then newName else p.column
      let ns := colNums numericData
      let scaled : List Cell :=
        match p.method with
        | .min_max =>
            let mn := colMinQ ns
            let mx := colMaxQ ns
            if mn = mx then numericData.map (fun _ => Cell.num (mkRat 1 2))
            else numericData.map (fun c =>
              match c with
              | .num x => Cell.num (qDiv (qSub x mn) (qSub mx mn))
              | _ => Cell.na)
        | .z_score =>
            let m := qDiv (qSum ns) (qOfInt (Int.ofNat ns.length))
            let sd := ratSqrt (sampleVariance ns)
            if sd = 0 then numericData.map (fun _ => Cell.num 0)
            else numericData.map (fun c =>
              match c with
              | .num x => Cell.num (qDiv (qSub x m) sd)
              | _ => Cell.na)
        | .max_abs =>
            let ma := if decide (qAbs (colMinQ ns) < qAbs (colMaxQ ns)) then
                qAbs (colMaxQ ns)
              else qAbs (colMinQ ns)
            if ma = 0 then numericData.map (fun _ => Cell.num 0)
            else numericData.map (fun c =>
              match c with
              | .num x => Cell.num (qDiv x ma)
              | _ => Cell.na)
        | .custom_range =>
            let mn := colMinQ ns
            let mx := colMaxQ ns
            if mn = mx then
              numericData.map (fun _ =>
                Cell.num (qDiv (qAdd p.min_value p.max_value) (qOfInt 2)))
            else numericData.map (fun c =>
              match c with
              | .num x => Cell.num (qAdd
                  (qMul (qDiv (qSub x mn) (qSub mx mn)) (qSub p.max_value p.min_value))
                  p.min_value)
              | _ => Cell.na)
      .ok (setColumn df target scaled)

/-- Leap-year test of the proleptic Gregorian calendar. -/
def isLeapYear (y : Int) : Bool := (y % 4 == 0 && y % 100 != 0) || y % 400 == 0

/-- Days in a month. -/
def daysInMonthN (y : Int) (m : Nat) : Nat :=
  match m with
  | 1 => 31
  | 2 => if isLeapYear y then 29 else 28
  | 3 => 31
  | 4 => 30
  | 5 => 31
  | 6 => 30
  | 7 => 31
  | 8 => 31
  | 9 => 30
  | 10 => 31
  | 11 => 30
  | 12 => 31
  | _ => 30

/-- Day count since 1970-01-01 of a civil date (standard
era/year-of-era computation). -/
def daysFromCivil (y : Int) (m d : Nat) : Int :=
  let y2 : Int := if m ≤ 2 then y - 1 else y
  let era : Int := (if 0 ≤ y2 then y2 else y2 - 399) / 400
  let yoe : Int := y2 - era * 400
  let mp : Int := ((m : Int) + 9) % 12
  let doy : Int := (153 * mp + 2) / 5 + (d : Int) - 1
  let doe : Int := yoe * 365 + yoe / 4 - yoe / 100 + doy
  era * 146097 + doe - 719468

/-- Day of week, Monday = 0 (as pandas `dt.dayofweek`). -/
def dayOfWeekMon0 (y : Int) (m d : Nat) : Nat :=
  ((daysFromCivil y m d + 3) % 7).toNat

/-- Models `strftime('%B')` month names. -/
def monthName (m : Nat) : String :=
  match m with
  | 1 => "January"
  | 2 => "February"
  | 3 => "March"
  | 4 => "April"
  | 5 => "May"
  | 6 => "June"
  | 7 => "July"
  | 8 => "August"
  | 9 => "September"
  | 10 => "October"
  | 11 => "November"
  | 12 => "December"
  | _ => ""

/-- Models `strftime('%A')` day names, indexed Monday = 0. -/
def dayName (dow : Nat) : String :=
  match dow with
  | 0 => "Monday"
  | 1 => "Tuesday"
  | 2 => "Wednesday"
  | 3 => "Thursday"
  | 4 => "Friday"
  | 5 => "Saturday"
  | 6 => "Sunday"
  | _ => ""

/-- Ordinal day of the year. -/
def ordinalDay (y : Int) (m d : Nat) : Nat :=
  d + ((List.range (m - 1)).map (fun i => daysInMonthN y (i + 1))).sum

/-- Number of ISO weeks in a year. -/
def isoWeeksInYear (y : Int) : Nat :=
  if dayOfWeekMon0 y 1 1 = 3 ∨ (isLeapYear y ∧ dayOfWeekMon0 y 1 1 = 2) then 53 else 52

/-- ISO-8601 week number (`dt.isocalendar().week`). -/
def isoWeek (y : Int) (m d : Nat) : Nat :=
  let w : Int := ((ordinalDay y m d : Int) - ((dayOfWeekMon0 y m d : Int) + 1) + 10) / 7
  if w < 1 then isoWeeksInYear (y - 1)
  else if w > (isoWeeksInYear y : Int) then 1
  else w.toNat

/-- The date components `DateExtractTransformer` can extract. -/
inductive DateComponent where
  | year
  | month
  | month_name
  | day
  | day_of_week
  | day_name
  | quarter
  | week
  | hour
  | minute
  | second
deriving DecidableEq, Repr

/-- Parameters of `DateExtractTransformer.transform`. -/
structure DateExtractParams where
  column : String
  component : DateComponent
  target_column : String
deriving Repr

/-- Models `pd.to_datetime(..., errors='coerce')` on one cell: timestamps stay,
everything else coerces to `NaT` (best-effort parsing of date-like text is
outside this model's scope). -/
def toDatetimeCell : Cell → Option (Int × Nat × Nat × Nat × Nat × Nat)
  | .timestamp y mo d h mi s => some (y, mo, d, h, mi, s)
  | _ => none

/-- The value-level `DateExtractTransformer.transform`
(`date_transformer.py:185-230`): checks, datetime coercion, then the
requested component into the target column (`NaT` rows yield missing). -/
def dateExtract_pure (df : DataFrame) (p : DateExtractParams) : Except String DataFrame :=
  if p.column ∉ df.cols then
    Except.error ("Column " ++ p.column ++ " not found in dataframe")
  else if p.target_column = "" then
    Except.error "Target column name cannot be empty"
  else
    let vals := (colValues df p.column).map (fun c =>
      match toDatetimeCell c with
      | none => Cell.na
      | some (y, mo, d, h, mi, s) =>
          match p.component with
          | .year => Cell.num (qOfInt y)
          | .month => Cell.num (qOfInt mo)
          | .month_name => Cell.str (monthName mo)
          | .day => Cell.num (qOfInt d)
          | .day_of_week => Cell.num (qOfInt (dayOfWeekMon0 y mo d + 1))
          | .day_name => Cell.str (dayName (dayOfWeekMon0 y mo d))
          | .quarter => Cell.num (qOfInt ((mo - 1) / 3 + 1))
          | .week => Cell.num (qOfInt (isoWeek y mo d))
          | .hour => Cell.num (qOfInt h)
          | .minute => Cell.num (qOfInt mi)
          | .second => Cell.num (qOfInt s))
    .ok (setColumn df p.target_column vals)

/-- Upper-casing of a string, character by character. -/
def strUpper (s : String) : String := String.mk (s.toList.map Char.toUpper)

/-- Python `str.title`: upper-case the first letter of each alphabetic
run, lower-case the rest. -/
def titleCaseAux : Bool → List Char → List Char
  | _, [] => []
  | prevAlpha, c :: cs =>
      let c2 := if c.isAlpha then (if prevAlpha then c.toLower else c.toUpper) else c
      c2 :: titleCaseAux c.isAlpha cs

/-- Models `str.title`. -/
def strTitle (s : String) : String := String.mk (titleCaseAux false s.toList)

/-- Models `str.capitalize`: first character upper-cased, the rest lower-cased. -/
def strCapitalize (s : String) : String :=
  match s.toList with
  | [] => ""
  | c :: cs => String.mk (c.toUpper :: cs.map Char.toLower)

/-- Models `astype(str)` on one cell (`NaN` stringifies to `"nan"`, as pandas
does; the rendering of numbers and timestamps is abstracted). -/
def cellToStr : Cell → String
  | .na => "nan"
  | .num q => toString q
  | .str s => s
  | .timestamp y mo d _ _ _ => toString y ++ "-" ++ toString mo ++ "-" ++ toString d
  | .cat i => toString i
  | .obj d => d

/-- The case conversions of `TextCaseTransformer`. -/
inductive TextCaseType where
  | lower
  | upper
  | title
  | sentence
deriving DecidableEq, Repr

/-- Parameters of `TextCaseTransformer.transform`. -/
structure TextCaseParams where
  column : String
  case_type : TextCaseType
deriving Repr

/-- The value-level `TextCaseTransformer.transform`
(`text_transformer.py:53-77`): column check, `astype(str)`, then the case
conversion written back into the same column. -/
def textCase_pure (df : DataFrame) (p : TextCaseParams) : Except String DataFrame :=
  if p.column ∉ df.cols then
    Except.error ("Column " ++ p.column ++ " not found in dataframe")
  else
    let strs := (colValues df p.column).map cellToStr
    let f :=
      match p.case_type with
      | .lower => strLower
      | .upper => strUpper
      | .title => strTitle
      | .sentence => fun s => strCapitalize (strLower s)
    .ok (setColumn df p.column (strs.map (fun s => Cell.str (f s))))

/-- The `result = df.copy(); mutate result; return result or raise`
discipline shared by every built-in transformer's `transform`, as a state
transformer over the heap: allocate the copy, run the value-level
transform, write the outcome into the copy (on failure the copy is
abandoned unchanged and the error propagates). -/
def transformState (f : DataFrame → Except String DataFrame) (s : PyState) (i : Nat) :
    PyState × Except String Nat :=
  let t := pyCopy s i
  match f (t.1.heap t.2) with
  | .ok d => (pyWrite t.1 t.2 d, .ok t.2)
  | .error e => (t.1, .error e)

/-- Models `NumericScalingTransformer.transform` over the heap. -/
def numericScaling_transform (s : PyState) (i : Nat) (p : ScalingParams) :
    PyState × Except String Nat :=
  transformState (fun d => numericScaling_pure d p) s i

/-- Models `DateExtractTransformer.transform` over the heap. -/
def dateExtract_transform (s : PyState) (i : Nat) (p : DateExtractParams) :
    PyState × Except String Nat :=
  transformState (fun d => dateExtract_pure d p) s i

/-- Models `TextCaseTransformer.transform` over the heap. -/
def textCase_transform (s : PyState) (i : Nat) (p : TextCaseParams) :
    PyState × Except String Nat :=
  transformState (fun d => textCase_pure d p) s i

/-- Models `MathOperationTransformer.transform` (basic branch) over the heap. -/
def mathOperation_transform (s : PyState) (i : Nat) (p : MathBasicParams) :
    PyState × Except String Nat :=
  transformState (fun d => mathOperation_transform_basic d p) s i

/-- Concrete cleaning options for the frame witness. -/
def sampleCleanOptions : CleanOptions :=
  { ignore_case := true
  , fill_method := none
  , fill_value := none
  , handle_duplicates := false
  , join_key := none }

/-- Concrete scaling parameters for the frame witness. -/
def sampleScalingParams : ScalingParams :=
  { column := "a"
  , method := .min_max
  , min_value := 0
  , max_value := 100
  , create_new_column := true
  , new_column_name := "" }

/-- Concrete date-extraction parameters for the frame witness. -/
def sampleDateParams : DateExtractParams :=
  { column := "a", component := .year, target_column := "y" }

/-- Concrete text-case parameters for the frame witness. -/
def sampleTextParams : TextCaseParams :=
  { column := "a", case_type := .lower }

/-- A one-table heap for the frame witness. -/
def sampleHeapState : PyState :=
  { heap := fun _ => ⟨["a"], [[Cell.num 1]]⟩, next := 1 }

-- Basic lemmas about column lookup and the concat construction.

theorem colIdx_eq_none (c : String) (l : List String) : colIdx c l = none ↔ c ∉ l := by
  induction l with
  | nil => simp [colIdx]
  | cons x xs ih =>
      by_cases hx : x = c
      · subst hx
        simp [colIdx]
      · simp [colIdx, hx, ih, Ne.symm hx]

theorem rowCell_not_mem (cols : List String) (row : List Cell) (c : String)
    (h : c ∉ cols) : rowCell cols row c = Cell.na := by
  unfold rowCell
  rw [(colIdx_eq_none c cols).2 h]

theorem rowCell_map_self (cols : List String) (f : String → Cell) (c : String)
    (h : c ∈ cols) : rowCell cols (cols.map f) c = f c := by
  induction cols with
  | nil => cases h
  | cons x xs ih =>
      by_cases hx : x = c
      · subst hx
        simp [rowCell, colIdx]
      · have hm : c ∈ xs := by
          cases h with
          | head => exact absurd rfl hx
          | tail _ h2 => exact h2
        have := ih hm
        unfold rowCell at this ⊢
        cases hidx : colIdx c xs with
        | none => exact absurd hm (by rw [← colIdx_eq_none c xs]; exact hidx)
        | some i =>
            rw [hidx] at this
            simp [colIdx, hx, hidx, List.map]
            simpa using this

theorem mem_addNewCols (acc cs : List String) (c : String) :
    c ∈ addNewCols acc cs ↔ c ∈ acc ∨ c ∈ cs := by
  unfold addNewCols
  simp [List.mem_filter]
  constructor
  · rintro (h | ⟨h, _⟩)
    · exact Or.inl h
    · exact Or.inr h
  · rintro (h | h)
    · exact Or.inl h
    · by_cases ha : c ∈ acc
      · exact Or.inl ha
      · exact Or.inr ⟨h, ha⟩

theorem mem_foldl_addNewCols (dfs : List DataFrame) (acc : List String) (c : String) :
    c ∈ dfs.foldl (fun a d => addNewCols a d.cols) acc ↔ c ∈ acc ∨ ∃ d ∈ dfs, c ∈ d.cols := by
  induction dfs generalizing acc with
  | nil => simp
  | cons d ds ih =>
      simp only [List.foldl_cons]
      rw [ih, mem_addNewCols]
      constructor
      · rintro ((h | h) | ⟨d2, hd2, hc⟩)
        · exact Or.inl h
        · exact Or.inr ⟨d, List.mem_cons_self d ds, h⟩
        · exact Or.inr ⟨d2, List.mem_cons_of_mem d hd2, hc⟩
      · rintro (h | ⟨d2, hd2, hc⟩)
        · exact Or.inl (Or.inl h)
        · cases hd2 with
          | head => exact Or.inl (Or.inr hc)
          | tail _ h2 => exact Or.inr ⟨d2, h2, hc⟩

theorem mem_unionCols (dfs : List DataFrame) (c : String) :
    c ∈ unionCols dfs ↔ ∃ d ∈ dfs, c ∈ d.cols := by
  unfold unionCols
  rw [mem_foldl_addNewCols]
  simp

theorem dedupFirstAux_congr (cs : List String) (s₁ s₂ : List String)
    (h : ∀ x ∈ cs, x ∈ s₁ ↔ x ∈ s₂) : dedupFirstAux s₁ cs = dedupFirstAux s₂ cs := by
  induction cs generalizing s₁ s₂ with
  | nil => rfl
  | cons c cs ih =>
      have hc := h c (List.mem_cons_self c cs)
      by_cases h1 : c ∈ s₁
      · have h2 : c ∈ s₂ := hc.1 h1
        simp only [dedupFirstAux, if_pos h1, if_pos h2]
        exact ih s₁ s₂ (fun x hx => h x (List.mem_cons_of_mem c hx))
      · have h2 : c ∉ s₂ := fun hh => h1 (hc.2 hh)
        simp only [dedupFirstAux, if_neg h1, if_neg h2]
        refine congrArg (c :: ·) (ih _ _ ?_)
        intro x hx
        simp only [List.mem_cons]
        rw [h x (List.mem_cons_of_mem c hx)]

theorem dedupFirstAux_cons_mem (seen : List String) (c : String) (cs : List String)
    (h : c ∈ seen) : dedupFirstAux seen (c :: cs) = dedupFirstAux seen cs := by
  simp [dedupFirstAux, h]

theorem dedupFirstAux_cons_not_mem (seen : List String) (c : String) (cs : List String)
    (h : c ∉ seen) : dedupFirstAux seen (c :: cs) = c :: dedupFirstAux (c :: seen) cs := by
  simp [dedupFirstAux, h]

theorem mem_dedupFirstAux (cs : List String) (seen : List String) (x : String) :
    x ∈ dedupFirstAux seen cs ↔ x ∈ cs ∧ x ∉ seen := by
  induction cs generalizing seen with
  | nil => simp [dedupFirstAux]
  | cons c cs ih =>
      by_cases h1 : c ∈ seen
      · rw [dedupFirstAux_cons_mem seen c cs h1, ih seen]
        simp only [List.mem_cons]
        constructor
        · rintro ⟨h, hn⟩
          exact ⟨Or.inr h, hn⟩
        · rintro ⟨rfl | h, hn⟩
          · exact absurd h1 hn
          · exact ⟨h, hn⟩
      · rw [dedupFirstAux_cons_not_mem seen c cs h1, List.mem_cons, ih (c :: seen)]
        simp only [List.mem_cons]
        constructor
        · rintro (rfl | ⟨h, hn⟩)
          · exact ⟨Or.inl rfl, h1⟩
          · exact ⟨Or.inr h, fun hh => hn (Or.inr hh)⟩
        · rintro ⟨rfl | h, hn⟩
          · exact Or.inl rfl
          · by_cases hxc : x = c
            · exact Or.inl hxc
            · exact Or.inr ⟨h, fun hh => by
                cases hh with
                | inl h2 => exact hxc h2
                | inr h2 => exact hn h2⟩

theorem dedupFirstAux_eq_filter (cs : List String) (seen : List String)
    (hnd : cs.Nodup) :
    dedupFirstAux seen cs = cs.filter (fun c => !(decide (c ∈ seen))) := by
  induction cs generalizing seen with
  | nil => rfl
  | cons c cs ih =>
      have hcn : c ∉ cs := (List.nodup_cons.1 hnd).1
      have hnd2 : cs.Nodup := (List.nodup_cons.1 hnd).2
      by_cases h1 : c ∈ seen
      · rw [dedupFirstAux_cons_mem seen c cs h1, List.filter_cons, if_neg (by simp [h1])]
        exact ih seen hnd2
      · rw [dedupFirstAux_cons_not_mem seen c cs h1, List.filter_cons, if_pos (by simp [h1])]
        refine congrArg (c :: ·) ?_
        rw [dedupFirstAux_congr cs (c :: seen) seen ?_, ih seen hnd2]
        intro x hx
        simp only [List.mem_cons]
        constructor
        · rintro (rfl | h)
          · exact absurd hx hcn
          · exact h
        · exact Or.inr

theorem addNewCols_eq_dedup (acc cs : List String) (hnd : cs.Nodup) :
    addNewCols acc cs = acc ++ dedupFirstAux acc cs := by
  unfold addNewCols
  rw [dedupFirstAux_eq_filter cs acc hnd]

theorem dedupFirstAux_append (cs rest : List String) (seen : List String) :
    dedupFirstAux seen (cs ++ rest)
      = dedupFirstAux seen cs ++ dedupFirstAux (cs ++ seen) rest := by
  induction cs generalizing seen with
  | nil => simp [dedupFirstAux]
  | cons c cs ih =>
      rw [List.cons_append]
      by_cases h1 : c ∈ seen
      · rw [dedupFirstAux_cons_mem seen c (cs ++ rest) h1,
          dedupFirstAux_cons_mem seen c cs h1, ih seen]
        refine congrArg (dedupFirstAux seen cs ++ ·) ?_
        refine dedupFirstAux_congr rest _ _ ?_
        intro x _
        rw [List.cons_append]
        simp only [List.mem_append, List.mem_cons]
        constructor
        · tauto
        · rintro ((rfl | h) | h)
          · exact Or.inr h1
          all_goals tauto
      · rw [dedupFirstAux_cons_not_mem seen c (cs ++ rest) h1,
          dedupFirstAux_cons_not_mem seen c cs h1, ih (c :: seen),
          List.cons_append]
        refine congrArg (c :: ·) ?_
        refine congrArg (dedupFirstAux (c :: seen) cs ++ ·) ?_
        refine dedupFirstAux_congr rest _ _ ?_
        intro x _
        rw [List.cons_append]
        simp only [List.mem_append, List.mem_cons]
        tauto

theorem unionCols_first_seen (dfs : List DataFrame)
    (hnd : ∀ d ∈ dfs, d.cols.Nodup) :
    unionCols dfs = dedupFirstAux [] (dfs.flatMap DataFrame.cols) := by
  suffices h : ∀ acc, (∀ d ∈ dfs, d.cols.Nodup) →
      dfs.foldl (fun a d => addNewCols a d.cols) acc
        = acc ++ dedupFirstAux acc (dfs.flatMap DataFrame.cols) by
    exact h [] hnd
  clear hnd
  induction dfs with
  | nil => intro acc _; simp [dedupFirstAux]
  | cons d ds ih =>
      intro acc hnd
      simp only [List.foldl_cons, List.flatMap_cons]
      rw [ih _ (fun d2 h2 => hnd d2 (List.mem_cons_of_mem d h2)),
        dedupFirstAux_append d.cols (ds.flatMap DataFrame.cols) acc,
        addNewCols_eq_dedup acc d.cols (hnd d (List.mem_cons_self d ds)),
        List.append_assoc]
      refine congrArg (acc ++ ·) ?_
      refine congrArg (dedupFirstAux acc d.cols ++ ·) ?_
      refine dedupFirstAux_congr _ _ _ ?_
      intro x _
      simp only [List.mem_append, mem_dedupFirstAux]
      tauto

/-- C3: for every non-empty list of input tables, the Append merge
(`pd.concat(dfs, ignore_index=True)` at `file_merger.py:363`) produces a
table whose row count is the sum of the inputs' row counts, whose columns
are the union of the inputs' columns in first-seen order, and in which a
row coming from a table lacking some output column carries the
missing-marker in that column. -/
theorem append_merge_rowcount_columns (dfs : List DataFrame) (hne : dfs ≠ []) :
    (concatTables dfs).rows.length = (dfs.map (fun d => d.rows.length)).sum
    ∧ (∀ c, c ∈ (concatTables dfs).cols ↔ ∃ d ∈ dfs, c ∈ d.cols)
    ∧ ((∀ d ∈ dfs, d.cols.Nodup) →
        (concatTables dfs).cols = dedupFirstAux [] (dfs.flatMap DataFrame.cols))
    ∧ (∀ d ∈ dfs, ∀ row ∈ d.rows,
        reindexRow d.cols (concatTables dfs).cols row ∈ (concatTables dfs).rows
        ∧ ∀ c ∈ (concatTables dfs).cols, c ∉ d.cols →
            rowCell (concatTables dfs).cols
              (reindexRow d.cols (concatTables dfs).cols row) c = Cell.na) := by
  refine ⟨?_, ?_, ?_, ?_⟩
  · show (dfs.flatMap fun d => d.rows.map (reindexRow d.cols (unionCols dfs))).length = _
    rw [List.length_flatMap]
    refine congrArg List.sum ?_
    refine List.map_congr_left ?_
    intro d _
    simp
  · intro c
    exact mem_unionCols dfs c
  · intro hnd
    exact unionCols_first_seen dfs hnd
  · intro d hd row hrow
    constructor
    · show _ ∈ dfs.flatMap fun d => d.rows.map (reindexRow d.cols (unionCols dfs))
      rw [List.mem_flatMap]
      exact ⟨d, hd, List.mem_map_of_mem _ hrow⟩
    · intro c hc hcd
      show rowCell (unionCols dfs) (reindexRow d.cols (unionCols dfs) row) c = Cell.na
      unfold reindexRow
      rw [rowCell_map_self (unionCols dfs) (rowCell d.cols row) c hc]
      exact rowCell_not_mem d.cols row c hcd

/-- Witness for C3 at two concrete single-column tables. -/
theorem append_merge_rowcount_columns_witness :
    (concatTables [⟨["a"], [[Cell.num 1]]⟩, ⟨["b"], [[Cell.num 2]]⟩]).rows.length
      = ([(⟨["a"], [[Cell.num 1]]⟩ : DataFrame), ⟨["b"], [[Cell.num 2]]⟩].map
          (fun d => d.rows.length)).sum :=
  (append_merge_rowcount_columns
    [⟨["a"], [[Cell.num 1]]⟩, ⟨["b"], [[Cell.num 2]]⟩] (by decide)).1

example : similarityScore "id" "idx" = mkRat 4 5 := by decide
example : suggest_column_mapping "id" ["idx", "name", "uid"] (mkRat 4 5) = ["idx", "uid"] := by decide


-- Character-level lemmas supporting the case-normalization arguments.

theorem charOfNat_toNat (n : Nat) (h : n.isValidChar) : (Char.ofNat n).toNat = n := by
  simp only [Char.ofNat, dif_pos h, Char.ofNatAux, Char.toNat]
  rfl

theorem charToLower_idem (c : Char) : c.toLower.toLower = c.toLower := by
  simp only [Char.toLower]
  split
  · rename_i h
    have hv : (c.toNat + 32).isValidChar := by
      left
      omega
    rw [charOfNat_toNat _ hv]
    rw [if_neg (by omega)]
  · rfl

theorem strLower_idem (s : String) : strLower (strLower s) = strLower s := by
  show String.mk ((s.toList.map Char.toLower).map Char.toLower) = _
  rw [List.map_map]
  refine congrArg String.mk ?_
  exact List.map_congr_left (fun c _ => charToLower_idem c)

theorem strLower_empty_iff (s : String) : strLower s = "" ↔ s = "" := by
  constructor
  · intro h
    have hd : s.toList.map Char.toLower = [] := congrArg String.data h
    have hn : s.toList = [] := by
      cases hl : s.toList with
      | nil => rfl
      | cons c cs => rw [hl] at hd; cases hd
    exact String.ext hn
  · intro h
    rw [h]
    rfl

theorem optTruthy_map_strLower (k : Option String) :
    optTruthy (k.map strLower) = optTruthy k := by
  cases k with
  | none => rfl
  | some s =>
      show decide (strLower s ≠ "") = decide (s ≠ "")
      rw [decide_eq_decide]
      exact not_congr (strLower_empty_iff s)

-- Lemmas about the in-place mutation of the options value.

theorem lowerJoinKey_ignore_false (o : MergeOptions) (h : o.ignore_case = false) :
    lowerJoinKey o = o := by
  unfold lowerJoinKey
  rw [if_neg]
  rintro ⟨h1, _⟩
  rw [h] at h1
  cases h1

theorem lowerJoinKey_ignore_case (o : MergeOptions) :
    (lowerJoinKey o).ignore_case = o.ignore_case := by
  unfold lowerJoinKey
  split
  · rfl
  · rfl

theorem lowerJoinKey_idem (o : MergeOptions) :
    lowerJoinKey (lowerJoinKey o) = lowerJoinKey o := by
  by_cases h : o.ignore_case = true ∧ optTruthy o.join_key = true
  · have hm : (o.join_key.map strLower).map strLower = o.join_key.map strLower := by
      cases o.join_key with
      | none => rfl
      | some s =>
          show some (strLower (strLower s)) = some (strLower s)
          rw [strLower_idem]
    have hcond2 : ({ o with join_key := o.join_key.map strLower } : MergeOptions).ignore_case = true
        ∧ optTruthy ({ o with join_key := o.join_key.map strLower } : MergeOptions).join_key = true := by
      refine ⟨h.1, ?_⟩
      show optTruthy (o.join_key.map strLower) = true
      rw [optTruthy_map_strLower]
      exact h.2
    unfold lowerJoinKey
    rw [if_pos h, if_pos hcond2]
    show ({ o with join_key := (o.join_key.map strLower).map strLower } : MergeOptions)
      = { o with join_key := o.join_key.map strLower }
    rw [hm]
  · unfold lowerJoinKey
    rw [if_neg h, if_neg h]

theorem loadLoop_opts (files : List LoadResult) (o : MergeOptions) :
    (loadLoop files o).2.2 = o ∨ (loadLoop files o).2.2 = lowerJoinKey o := by
  induction files generalizing o with
  | nil => exact Or.inl rfl
  | cons f rest ih =>
      cases f with
      | failure msg =>
          simpa only [loadLoop] using ih o
      | table name df =>
          by_cases hg : dfNonEmpty df = true
          · have h2 := ih (lowerJoinKey o)
            rw [lowerJoinKey_idem] at h2
            have h3 : (loadLoop rest (lowerJoinKey o)).2.2 = lowerJoinKey o := by
              rcases h2 with h2 | h2
              · exact h2
              · exact h2
            simp only [loadLoop, hg, if_true]
            split <;> (try split) <;> exact Or.inr h3
          · simp only [loadLoop, hg]
            simpa only [Bool.false_eq_true, if_false] using ih o

theorem flatMapCongr {α β : Type} (l : List α) (f g : α → List β)
    (h : ∀ x ∈ l, f x = g x) : l.flatMap f = l.flatMap g := by
  induction l with
  | nil => rfl
  | cons x xs ih =>
      simp only [List.flatMap_cons]
      rw [h x (List.mem_cons_self x xs), ih (fun y hy => h y (List.mem_cons_of_mem x hy))]

theorem fileLoadErrors_lower (o : MergeOptions) (f : LoadResult) :
    fileLoadErrors (lowerJoinKey o) f = fileLoadErrors o f := by
  cases f with
  | failure msg => rfl
  | table name df =>
      simp only [fileLoadErrors, lowerJoinKey_idem, lowerJoinKey_ignore_case]

theorem loadLoop_errors (files : List LoadResult) (o : MergeOptions) :
    (loadLoop files o).2.1 = files.flatMap (fileLoadErrors o) := by
  induction files generalizing o with
  | nil => rfl
  | cons f rest ih =>
      cases f with
      | failure msg =>
          simp only [loadLoop, List.flatMap_cons, fileLoadErrors]
          rw [ih o]
          rfl
      | table name df =>
          have hcongr : rest.flatMap (fileLoadErrors (lowerJoinKey o))
              = rest.flatMap (fileLoadErrors o) :=
            flatMapCongr rest _ _ (fun x _ => fileLoadErrors_lower o x)
          by_cases hg : dfNonEmpty df = true
          · simp only [loadLoop, fileLoadErrors, hg, if_true, List.flatMap_cons]
            rw [ih (lowerJoinKey o), hcongr]
            split_ifs <;> simp
          · simp only [loadLoop, fileLoadErrors, hg, Bool.false_eq_true, if_false,
              List.flatMap_cons]
            rw [ih o]
            simp

theorem lowerJoinKey_merge_method (o : MergeOptions) :
    (lowerJoinKey o).merge_method = o.merge_method := by
  unfold lowerJoinKey
  split
  · rfl
  · rfl

/-- C1: for every merge request with the Join strategy (and a supplied join
key), if some loaded input table lacks the join-key column after the
requested case normalization, the merge returns no table, the full
accumulated error list is returned, and the missing-key diagnostics for
that table carry at most the first 3 reconciler-suggested alternatives. -/
theorem process_files_join_missing_key
    (files : List LoadResult) (opts : MergeOptions) (name : String) (df : DataFrame)
    (hjoin : opts.merge_method = MergeMethod.join)
    (hkey : optTruthy opts.join_key = true)
    (hmem : LoadResult.table name df ∈ files)
    (hne : dfNonEmpty df = true)
    (hmiss : joinKeyStr (lowerJoinKey opts)
      ∉ (if opts.ignore_case then lowerCols df else df).cols) :
    (process_files files opts).1 = none
    ∧ (process_files files opts).2.1 = some (files.flatMap (fileLoadErrors opts))
    ∧ MergeError.missingKeyColumn name (joinKeyStr (lowerJoinKey opts))
        ∈ files.flatMap (fileLoadErrors opts)
    ∧ (suggest_column_mapping (joinKeyStr (lowerJoinKey opts))
          (if opts.ignore_case then lowerCols df else df).cols (mkRat 4 5) ≠ [] →
        MergeError.similarColumnsFound
          ((suggest_column_mapping (joinKeyStr (lowerJoinKey opts))
            (if opts.ignore_case then lowerCols df else df).cols (mkRat 4 5)).take 3)
          ∈ files.flatMap (fileLoadErrors opts))
    ∧ ((suggest_column_mapping (joinKeyStr (lowerJoinKey opts))
          (if opts.ignore_case then lowerCols df else df).cols (mkRat 4 5)).take 3).length
        ≤ 3 := by
  have hfe : fileLoadErrors opts (LoadResult.table name df)
      = MergeError.missingKeyColumn name (joinKeyStr (lowerJoinKey opts)) ::
          (if (suggest_column_mapping (joinKeyStr (lowerJoinKey opts))
            (if opts.ignore_case then lowerCols df else df).cols (mkRat 4 5)).isEmpty then []
           else [MergeError.similarColumnsFound
            ((suggest_column_mapping (joinKeyStr (lowerJoinKey opts))
              (if opts.ignore_case then lowerCols df else df).cols (mkRat 4 5)).take 3)]) := by
    simp only [fileLoadErrors, hne, if_true]
    rw [if_pos ⟨by rw [lowerJoinKey_merge_method, hjoin], hmiss⟩]
  have hmm : MergeError.missingKeyColumn name (joinKeyStr (lowerJoinKey opts))
      ∈ files.flatMap (fileLoadErrors opts) := by
    rw [List.mem_flatMap]
    exact ⟨LoadResult.table name df, hmem, by rw [hfe]; exact List.mem_cons_self _ _⟩
  have hne2 : (files.flatMap (fileLoadErrors opts)).isEmpty = false := by
    cases hfm : files.flatMap (fileLoadErrors opts) with
    | nil => rw [hfm] at hmm; cases hmm
    | cons a l => rfl
  have hne0 : files.isEmpty = false := by
    cases files with
    | nil => cases hmem
    | cons f fs => rfl
  have hcond2 : ¬(opts.merge_method = MergeMethod.join ∧ (!optTruthy opts.join_key) = true) := by
    rintro ⟨_, hh⟩
    rw [hkey] at hh
    cases hh
  have hres : process_files files opts
      = (none, some (files.flatMap (fileLoadErrors opts)), (loadLoop files opts).2.2) := by
    unfold process_files
    rw [if_neg (by rw [hne0]; exact Bool.false_ne_true), if_neg hcond2]
    simp only [loadLoop_errors files opts, hne2, Bool.not_false, if_true]
  refine ⟨by rw [hres], by rw [hres], hmm, ?_, ?_⟩
  · intro hs
    rw [List.mem_flatMap]
    refine ⟨LoadResult.table name df, hmem, ?_⟩
    rw [hfe, if_neg (by simpa using hs)]
    exact List.mem_cons_of_mem _ (List.mem_cons_self _ _)
  · exact List.length_take_le 3 _

/-- Witness for C1: a Join merge with key `ID` (case normalization on) over
one table whose only column is `idx`. -/
theorem process_files_join_missing_key_witness :
    (process_files [LoadResult.table "a.csv" ⟨["idx"], [[Cell.num 1]]⟩]
      sampleJoinOptions).1 = none :=
  (process_files_join_missing_key
    [LoadResult.table "a.csv" ⟨["idx"], [[Cell.num 1]]⟩] sampleJoinOptions
    "a.csv" ⟨["idx"], [[Cell.num 1]]⟩
    (by decide) (by decide) (by decide) (by decide) (by decide)).1

/-- Counterexample to C2 as stated: one file fails to load, a second loads
fine, the strategy is Append (so no Join key error is possible), and yet
the merge produces no result at all - `process_files` returns the error
batch and no table instead of merging the remaining table. -/
theorem process_files_load_failure_cex :
    (process_files [LoadResult.failure "read error",
        LoadResult.table "b.csv" ⟨["a"], [[Cell.num 1]]⟩] sampleAppendOptions).1 = none
    ∧ (process_files [LoadResult.failure "read error",
        LoadResult.table "b.csv" ⟨["a"], [[Cell.num 1]]⟩] sampleAppendOptions).2.1
      = some [MergeError.loadError "read error"] := by
  decide

/-- C2 as amended: a failing file is excluded from the loaded tables and
reported, but then ANY accumulated per-file error (a load failure just as
much as a Join key error) fails the entire merge: no table is returned and
the full error batch is. -/
theorem process_files_any_load_failure_fails
    (files : List LoadResult) (opts : MergeOptions) (msg : String)
    (hmem : LoadResult.failure msg ∈ files)
    (hkey : opts.merge_method ≠ MergeMethod.join ∨ optTruthy opts.join_key = true) :
    (process_files files opts).1 = none
    ∧ (process_files files opts).2.1 = some (files.flatMap (fileLoadErrors opts))
    ∧ MergeError.loadError msg ∈ files.flatMap (fileLoadErrors opts) := by
  have hmm : MergeError.loadError msg ∈ files.flatMap (fileLoadErrors opts) := by
    rw [List.mem_flatMap]
    exact ⟨LoadResult.failure msg, hmem, List.mem_cons_self _ _⟩
  have hne2 : (files.flatMap (fileLoadErrors opts)).isEmpty = false := by
    cases hfm : files.flatMap (fileLoadErrors opts) with
    | nil => rw [hfm] at hmm; cases hmm
    | cons a l => rfl
  have hne0 : files.isEmpty = false := by
    cases files with
    | nil => cases hmem
    | cons f fs => rfl
  have hcond2 : ¬(opts.merge_method = MergeMethod.join ∧ (!optTruthy opts.join_key) = true) := by
    rintro ⟨hj, hh⟩
    rcases hkey with hk | hk
    · exact hk hj
    · rw [hk] at hh
      cases hh
  have hres : process_files files opts
      = (none, some (files.flatMap (fileLoadErrors opts)), (loadLoop files opts).2.2) := by
    unfold process_files
    rw [if_neg (by rw [hne0]; exact Bool.false_ne_true), if_neg hcond2]
    simp only [loadLoop_errors files opts, hne2, Bool.not_false, if_true]
  exact ⟨by rw [hres], by rw [hres], hmm⟩

/-- Witness for the amended C2. -/
theorem process_files_any_load_failure_fails_witness :
    (process_files [LoadResult.failure "read error",
        LoadResult.table "b.csv" ⟨["a"], [[Cell.num 1]]⟩] sampleAppendOptions).1 = none :=
  (process_files_any_load_failure_fails
    [LoadResult.failure "read error", LoadResult.table "b.csv" ⟨["a"], [[Cell.num 1]]⟩]
    sampleAppendOptions "read error" (by decide) (Or.inl (by decide))).1

theorem process_files_opts (files : List LoadResult) (opts : MergeOptions) :
    (process_files files opts).2.2 = opts
    ∨ (process_files files opts).2.2 = lowerJoinKey opts := by
  unfold process_files
  split_ifs
  · exact Or.inl rfl
  · exact Or.inl rfl
  · dsimp only
    split_ifs <;> exact loadLoop_opts files opts

/-- Counterexample to C7 as stated: with case normalization enabled and an
upper-case join key, running the merge mutates the caller's options value
in place - the join key field comes back lower-cased. -/
theorem process_files_mutates_options_cex :
    (process_files [LoadResult.table "a.csv" ⟨["id"], [[Cell.num 1]]⟩]
        sampleJoinOptions).2.2 ≠ sampleJoinOptions
    ∧ (process_files [LoadResult.table "a.csv" ⟨["id"], [[Cell.num 1]]⟩]
        sampleJoinOptions).2.2.join_key = some "id"
    ∧ sampleJoinOptions.join_key = some "ID" := by
  decide

/-- C7 as amended: the merge preserves every field of the caller's options
except the join key, which is either unchanged or overwritten with its
lower-cased form; with case normalization off the options come back
entirely unchanged. -/
theorem process_files_options_frame (files : List LoadResult) (opts : MergeOptions) :
    optionsFramePreserved opts (process_files files opts).2.2
    ∧ (opts.ignore_case = false → (process_files files opts).2.2 = opts) := by
  have hself : optionsFramePreserved opts opts :=
    ⟨rfl, rfl, rfl, rfl, rfl, rfl, rfl, rfl, rfl, rfl, Or.inl rfl⟩
  have hlow : optionsFramePreserved opts (lowerJoinKey opts) := by
    unfold optionsFramePreserved lowerJoinKey
    split
    · exact ⟨rfl, rfl, rfl, rfl, rfl, rfl, rfl, rfl, rfl, rfl, Or.inr rfl⟩
    · exact ⟨rfl, rfl, rfl, rfl, rfl, rfl, rfl, rfl, rfl, rfl, Or.inl rfl⟩
  rcases process_files_opts files opts with h | h
  · rw [h]
    exact ⟨hself, fun _ => rfl⟩
  · rw [h]
    exact ⟨hlow, fun hic => lowerJoinKey_ignore_false opts hic⟩

/-- Witness for the amended C7 at a concrete request with case
normalization off. -/
theorem process_files_options_frame_witness :
    (process_files [] sampleAppendOptions).2.2 = sampleAppendOptions :=
  (process_files_options_frame [] sampleAppendOptions).2 rfl

-- Lemmas about the Smart-merge column intersection.

theorem mem_foldl_filter (ds : List DataFrame) (init : List String) (c : String) :
    c ∈ ds.foldl (fun acc d2 => acc.filter (fun x => decide (x ∈ d2.cols))) init
      ↔ c ∈ init ∧ ∀ d2 ∈ ds, c ∈ d2.cols := by
  induction ds generalizing init with
  | nil => simp
  | cons d ds ih =>
      simp only [List.foldl_cons]
      rw [ih]
      simp only [List.mem_filter, decide_eq_true_eq, List.forall_mem_cons]
      tauto

theorem mem_commonCols (d : DataFrame) (ds : List DataFrame) (c : String) :
    c ∈ commonCols (d :: ds) ↔ ∀ d2 ∈ d :: ds, c ∈ d2.cols := by
  unfold commonCols
  rw [mem_foldl_filter]
  simp only [List.forall_mem_cons]

/-- C4: a Smart merge over two or more tables with an empty column-name
intersection falls back to the Append behaviour (vertical concatenation of
all the tables) and emits the no-common-columns warning diagnostic. -/
theorem smart_merge_no_common_columns (dfs : List DataFrame)
    (h2 : 2 ≤ dfs.length) (hempty : commonCols dfs = []) :
    (smartMergeStage dfs).1 = concatTables dfs
    ∧ SmartDiag.noCommonColumnsWarning ∈ (smartMergeStage dfs).2
    ∧ ∀ c : String, ¬ ∀ d ∈ dfs, c ∈ d.cols := by
  match dfs with
  | [] => simp at h2
  | [d] => simp at h2
  | d1 :: d2 :: rest =>
      have h3 : ∀ c : String, ¬ ∀ d ∈ d1 :: d2 :: rest, c ∈ d.cols := by
        intro c hc
        have hmem := (mem_commonCols d1 (d2 :: rest) c).2 hc
        rw [hempty] at hmem
        cases hmem
      refine ⟨?_, ?_, h3⟩
      · show (smartMergeStage (d1 :: d2 :: rest)).1 = _
        simp only [smartMergeStage, hempty, List.isEmpty_nil, if_true]
      · show SmartDiag.noCommonColumnsWarning ∈ (smartMergeStage (d1 :: d2 :: rest)).2
        simp only [smartMergeStage, hempty, List.isEmpty_nil, if_true]
        exact List.mem_cons_of_mem _ (List.mem_cons_self _ _)

/-- Witness for C4 at two concrete tables with disjoint columns. -/
theorem smart_merge_no_common_columns_witness :
    (smartMergeStage [⟨["a"], [[Cell.num 1]]⟩, ⟨["b"], [[Cell.num 2]]⟩]).1
      = concatTables [⟨["a"], [[Cell.num 1]]⟩, ⟨["b"], [[Cell.num 2]]⟩] :=
  (smart_merge_no_common_columns [⟨["a"], [[Cell.num 1]]⟩, ⟨["b"], [[Cell.num 2]]⟩]
    (by decide) (by decide)).1

-- Bridging lemmas: the mkRat-based arithmetic is ordinary Rat arithmetic.

theorem qAdd_eq (a b : Rat) : qAdd a b = a + b := by
  have ha : (a.den : Rat) ≠ 0 := Nat.cast_ne_zero.mpr a.den_nz
  have hb : (b.den : Rat) ≠ 0 := Nat.cast_ne_zero.mpr b.den_nz
  unfold qAdd
  conv_rhs => rw [← Rat.num_div_den a, ← Rat.num_div_den b]
  rw [div_add_div _ _ ha hb, Rat.mkRat_eq_div]
  push_cast
  ring_nf

theorem qNeg_eq (a : Rat) : qNeg a = -a := by
  unfold qNeg
  rw [Rat.mkRat_eq_div]
  push_cast
  rw [neg_div, Rat.num_div_den]

theorem qSub_eq (a b : Rat) : qSub a b = a - b := by
  unfold qSub
  rw [qAdd_eq, qNeg_eq, sub_eq_add_neg]

theorem qMul_eq (a b : Rat) : qMul a b = a * b := by
  have ha : (a.den : Rat) ≠ 0 := Nat.cast_ne_zero.mpr a.den_nz
  have hb : (b.den : Rat) ≠ 0 := Nat.cast_ne_zero.mpr b.den_nz
  unfold qMul
  conv_rhs => rw [← Rat.num_div_den a, ← Rat.num_div_den b]
  rw [div_mul_div_comm, Rat.mkRat_eq_div]
  push_cast
  ring_nf

theorem qOfInt_eq (i : Int) : qOfInt i = (i : Rat) := by
  unfold qOfInt
  rw [Rat.mkRat_eq_div]
  simp

theorem qAbs_eq (a : Rat) : qAbs a = |a| := by
  have hd : (0 : Rat) < (a.den : Rat) := by
    exact_mod_cast a.pos
  unfold qAbs
  rw [Rat.mkRat_eq_div]
  conv_rhs => rw [← Rat.num_div_den a]
  rw [abs_div]
  congr 1
  · show ((a.num.natAbs : Int) : Rat) = _
    rw [Int.cast_natCast, Int.cast_natAbs, Int.cast_abs]
  · rw [abs_of_pos hd]

theorem qPowNat_eq (a : Rat) (n : Nat) : qPowNat a n = a ^ n := by
  induction n with
  | zero => rfl
  | succ n ih => rw [qPowNat, qMul_eq, ih, pow_succ, mul_comm]

theorem qDiv_eq (a b : Rat) (hb : b ≠ 0) : qDiv a b = a / b := by
  have ha : (a.den : Rat) ≠ 0 := Nat.cast_ne_zero.mpr a.den_nz
  have hbd : (b.den : Rat) ≠ 0 := Nat.cast_ne_zero.mpr b.den_nz
  have hbn : b.num ≠ 0 := Rat.num_ne_zero.mpr hb
  have hbnr : ((b.num : Int) : Rat) ≠ 0 := by exact_mod_cast hbn
  have hna : (a.num : Rat) = a * (a.den : Rat) := (div_eq_iff ha).mp (Rat.num_div_den a)
  have hnb : (b.num : Rat) = b * (b.den : Rat) := (div_eq_iff hbd).mp (Rat.num_div_den b)
  have key : ((a.num : Rat) * (b.den : Rat)) / ((a.den : Rat) * (b.num : Rat)) = a / b := by
    rw [div_eq_div_iff (mul_ne_zero ha hbnr) hb, hna, hnb]
    ring
  unfold qDiv
  rw [Rat.mkRat_eq_div]
  rcases lt_trichotomy b.num 0 with hneg | hzero | hpos
  · rw [Int.sign_eq_neg_one_of_neg hneg]
    have habs : ((a.den * b.num.natAbs : Nat) : Rat) = (a.den : Rat) * (-(b.num : Rat)) := by
      push_cast [Int.cast_natAbs]
      rw [abs_of_neg (show ((b.num : Int) : Rat) < 0 by exact_mod_cast hneg)]
    rw [habs]
    push_cast
    rw [mul_neg_one, mul_neg, neg_div_neg_eq]
    exact key
  · exact absurd hzero hbn
  · rw [Int.sign_eq_one_of_pos hpos]
    have habs : ((a.den * b.num.natAbs : Nat) : Rat) = (a.den : Rat) * (b.num : Rat) := by
      push_cast [Int.cast_natAbs]
      rw [abs_of_pos (show (0 : Rat) < ((b.num : Int) : Rat) by exact_mod_cast hpos)]
    rw [habs]
    push_cast
    rw [mul_one]
    exact key

-- List-indexing lemmas used to read a written column back.

theorem colIdx_lt_length (c : String) (l : List String) (i : Nat)
    (h : colIdx c l = some i) : i < l.length := by
  induction l generalizing i with
  | nil => cases h
  | cons x xs ih =>
      by_cases hx : x = c
      · simp only [colIdx, if_pos hx] at h
        cases h
        exact Nat.succ_pos xs.length
      · simp only [colIdx, if_neg hx] at h
        cases hj : colIdx c xs with
        | none => rw [hj] at h; cases h
        | some j =>
            rw [hj] at h
            have h2 : j + 1 = i := by
              injection h
            have := ih j hj
            simp only [List.length_cons]
            omega

theorem colIdx_append_self (c : String) (l : List String) (h : c ∉ l) :
    colIdx c (l ++ [c]) = some l.length := by
  induction l with
  | nil => simp [colIdx]
  | cons x xs ih =>
      have hx : x ≠ c := fun hh => h (hh ▸ List.mem_cons_self x xs)
      have hxs : c ∉ xs := fun hh => h (List.mem_cons_of_mem x hh)
      simp only [List.cons_append, colIdx, if_neg hx]
      rw [show xs.append [c] = xs ++ [c] from rfl, ih hxs]
      rfl

theorem getD_set_self (l : List Cell) (i : Nat) (v d : Cell) (h : i < l.length) :
    (l.set i v).getD i d = v := by
  induction l generalizing i with
  | nil => simp at h
  | cons a l ih =>
      cases i with
      | zero => rfl
      | succ j =>
          simp only [List.set_cons_succ, List.getD_cons_succ]
          exact ih j (by simpa using h)

theorem getD_append_len (l : List Cell) (v d : Cell) :
    (l ++ [v]).getD l.length d = v := by
  induction l with
  | nil => rfl
  | cons a l ih => simpa using ih

theorem getD_map (f : Cell → Cell) (l : List Cell) (i : Nat) (da db : Cell)
    (hf : f da = db) (hi : i < l.length) :
    (l.map f).getD i db = f (l.getD i da) := by
  induction l generalizing i with
  | nil => simp at hi
  | cons a l ih =>
      cases i with
      | zero => rfl
      | succ j =>
          simp only [List.map_cons, List.getD_cons_succ]
          exact ih j (by simpa using hi)

theorem getD_zipWith (f : Cell → Cell → Cell) (l1 l2 : List Cell) (i : Nat)
    (d1 d2 dc : Cell) (hf : f d1 d2 = dc)
    (h1 : i < l1.length) (h2 : i < l2.length) :
    (List.zipWith f l1 l2).getD i dc = f (l1.getD i d1) (l2.getD i d2) := by
  induction l1 generalizing l2 i with
  | nil => simp at h1
  | cons a l1 ih =>
      cases l2 with
      | nil => simp at h2
      | cons b l2 =>
          cases i with
          | zero => rfl
          | succ j =>
              simp only [List.zipWith_cons_cons, List.getD_cons_succ]
              exact ih l2 j (by simpa using h1) (by simpa using h2)

theorem map_snd_zip_eq (l1 : List (List Cell)) (l2 : List Cell)
    (h : l1.length = l2.length) : (l1.zip l2).map Prod.snd = l2 := by
  induction l1 generalizing l2 with
  | nil =>
      cases l2 with
      | nil => rfl
      | cons b l2 => simp at h
  | cons a l1 ih =>
      cases l2 with
      | nil => simp at h
      | cons b l2 =>
          simp only [List.zip_cons_cons, List.map_cons]
          rw [ih l2 (by simpa using h)]

theorem length_colValues (d : DataFrame) (c : String) :
    (colValues d c).length = d.rows.length := by
  unfold colValues
  exact List.length_map d.rows _

/-- Reading back the column just written by `setColumn` yields the written
values, for aligned tables. -/
theorem colValues_setColumn (d : DataFrame) (name : String) (vals : List Cell)
    (hwf : ∀ row ∈ d.rows, row.length = d.cols.length)
    (hlen : vals.length = d.rows.length) :
    colValues (setColumn d name vals) name = vals := by
  unfold setColumn
  cases hidx : colIdx name d.cols with
  | none =>
      have hnot : name ∉ d.cols := (colIdx_eq_none name d.cols).1 hidx
      have hidx2 : colIdx name (d.cols ++ [name]) = some d.cols.length :=
        colIdx_append_self name d.cols hnot
      show ((d.rows.zip vals).map (fun p => p.1 ++ [p.2])).map
        (fun r => rowCell (d.cols ++ [name]) r name) = vals
      rw [List.map_map]
      have hpt : ∀ p ∈ d.rows.zip vals,
          ((fun r => rowCell (d.cols ++ [name]) r name) ∘ (fun p => p.1 ++ [p.2])) p
            = Prod.snd p := by
        intro p hp
        have h1 : p.1 ∈ d.rows := (List.of_mem_zip hp).1
        show rowCell (d.cols ++ [name]) (p.1 ++ [p.2]) name = p.2
        unfold rowCell
        rw [hidx2, ← hwf p.1 h1]
        exact getD_append_len p.1 p.2 Cell.na
      rw [List.map_congr_left hpt]
      exact map_snd_zip_eq d.rows vals hlen.symm
  | some i =>
      have hlt : i < d.cols.length := colIdx_lt_length name d.cols i hidx
      show ((d.rows.zip vals).map (fun p => p.1.set i p.2)).map
        (fun r => rowCell d.cols r name) = vals
      rw [List.map_map]
      have hpt : ∀ p ∈ d.rows.zip vals,
          ((fun r => rowCell d.cols r name) ∘ (fun p => p.1.set i p.2)) p
            = Prod.snd p := by
        intro p hp
        have h1 : p.1 ∈ d.rows := (List.of_mem_zip hp).1
        show rowCell d.cols (p.1.set i p.2) name = p.2
        unfold rowCell
        rw [hidx]
        exact getD_set_self p.1 i p.2 Cell.na (by rw [hwf p.1 h1]; exact hlt)
      rw [List.map_congr_left hpt]
      exact map_snd_zip_eq d.rows vals hlen.symm

/-- The per-row behaviour of `result[target] = col1 op divisor.replace(0, nan)`
(`numeric_transformer.py:500-519`) for any cell-wise rational operator:
a zero (or missing) divisor cell yields the missing-marker in exactly
that row, every other numeric row gets the operator's exact value. -/
theorem mathColZipRows (df : DataFrame)
    (hwf : ∀ row ∈ df.rows, row.length = df.cols.length)
    (target c1 c2 : String) (qop : Rat → Rat → Rat) :
    ∀ i a b, i < df.rows.length →
        (colValues df c1).getD i Cell.na = Cell.num a →
        (colValues df c2).getD i Cell.na = Cell.num b →
        (b = 0 → (colValues (setColumn df target
            (List.zipWith (cellBin qop)
              ((colValues df c1).map toNumericCell)
              (((colValues df c2).map toNumericCell).map
                (fun c => if c == Cell.num 0 then Cell.na else c)))) target).getD i Cell.na
          = Cell.na)
        ∧ (b ≠ 0 → (colValues (setColumn df target
            (List.zipWith (cellBin qop)
              ((colValues df c1).map toNumericCell)
              (((colValues df c2).map toNumericCell).map
                (fun c => if c == Cell.num 0 then Cell.na else c)))) target).getD i Cell.na
          = Cell.num (qop a b)) := by
  intro i a b hi ha hb
  have hlen1 : ((colValues df c1).map toNumericCell).length = df.rows.length := by
    rw [List.length_map, length_colValues]
  have hlen2 : (((colValues df c2).map toNumericCell).map
      (fun c => if c == Cell.num 0 then Cell.na else c)).length = df.rows.length := by
    rw [List.length_map, List.length_map, length_colValues]
  have hvals : colValues
      (setColumn df target
        (List.zipWith (cellBin qop)
          ((colValues df c1).map toNumericCell)
          (((colValues df c2).map toNumericCell).map
            (fun c => if c == Cell.num 0 then Cell.na else c))))
      target
      = List.zipWith (cellBin qop)
          ((colValues df c1).map toNumericCell)
          (((colValues df c2).map toNumericCell).map
            (fun c => if c == Cell.num 0 then Cell.na else c)) := by
    refine colValues_setColumn df target _ hwf ?_
    rw [List.length_zipWith, hlen1, hlen2]
    exact Nat.min_self _
  rw [hvals]
  have hz : (List.zipWith (cellBin qop)
      ((colValues df c1).map toNumericCell)
      (((colValues df c2).map toNumericCell).map
        (fun c => if c == Cell.num 0 then Cell.na else c))).getD i Cell.na
      = cellBin qop
          (((colValues df c1).map toNumericCell).getD i Cell.na)
          ((((colValues df c2).map toNumericCell).map
            (fun c => if c == Cell.num 0 then Cell.na else c)).getD i Cell.na) :=
    getD_zipWith (cellBin qop) _ _ i Cell.na Cell.na Cell.na rfl
      (by rw [hlen1]; exact hi) (by rw [hlen2]; exact hi)
  have h1 : ((colValues df c1).map toNumericCell).getD i Cell.na = Cell.num a := by
    rw [getD_map toNumericCell _ i Cell.na Cell.na rfl
      (by rw [length_colValues]; exact hi), ha]
    rfl
  have hb1 : ((colValues df c2).map toNumericCell).getD i Cell.na = Cell.num b := by
    rw [getD_map toNumericCell _ i Cell.na Cell.na rfl
      (by rw [length_colValues]; exact hi), hb]
    rfl
  constructor
  · intro hb0
    rw [hz, h1]
    rw [getD_map (fun c => if c == Cell.num 0 then Cell.na else c) _ i Cell.na Cell.na
      rfl (by rw [List.length_map, length_colValues]; exact hi), hb1, hb0]
    rfl
  · intro hb0
    rw [hz, h1]
    rw [getD_map (fun c => if c == Cell.num 0 then Cell.na else c) _ i Cell.na Cell.na
      rfl (by rw [List.length_map, length_colValues]; exact hi), hb1]
    have : (Cell.num b == Cell.num 0) = false := by
      simp [hb0]
    rw [this]
    rfl

/-- C5: the Math Operation transform with divide or modulo.  A literal
divisor equal to zero fails hard with an error (no output column); with a
column divisor, under the divide operator and equally under the modulo
operator, a zero (or missing) divisor cell produces the missing-marker in
exactly that row of the result column while every row with a non-zero
numeric divisor gets its exact quotient or remainder. -/
theorem math_divide_by_zero (df : DataFrame) (p : MathBasicParams)
    (hwf : ∀ row ∈ df.rows, row.length = df.cols.length) :
    ((p.use_value = true ∨ optTruthy p.column2 = false) →
      p.value = 0 → p.column1 ∈ df.cols → p.target_column ≠ "" →
      (p.operator = MathOp.div →
        mathOperation_transform_basic df p
          = Except.error "Error performing math operation: Cannot divide by zero")
      ∧ (p.operator = MathOp.mod →
        mathOperation_transform_basic df p
          = Except.error "Error performing math operation: Cannot take modulo by zero"))
    ∧ (∀ c2 : String, ∀ qop : Rat → Rat → Rat,
        p.use_value = false → p.column2 = some c2 → c2 ≠ "" →
        (p.operator = MathOp.div ∧ qop = qDiv) ∨ (p.operator = MathOp.mod ∧ qop = qMod) →
        p.column1 ∈ df.cols → c2 ∈ df.cols → p.target_column ≠ "" →
        ∃ df', mathOperation_transform_basic df p = Except.ok df'
          ∧ ∀ i a b, i < df.rows.length →
              (colValues df p.column1).getD i Cell.na = Cell.num a →
              (colValues df c2).getD i Cell.na = Cell.num b →
              (b = 0 → (colValues df' p.target_column).getD i Cell.na = Cell.na)
              ∧ (b ≠ 0 →
                  (colValues df' p.target_column).getD i Cell.na
                    = Cell.num (qop a b))) := by
  constructor
  · intro hscalar h0 hc1 ht
    have hcond : (p.use_value || !(optTruthy p.column2)) = true := by
      rcases hscalar with h | h
      · rw [h]; rfl
      · rw [h]; simp
    constructor
    · intro hop
      unfold mathOperation_transform_basic
      rw [if_neg (not_not_intro hc1), if_neg ht]
      simp only [hcond, if_true, hop, h0, if_pos rfl]
    · intro hop
      unfold mathOperation_transform_basic
      rw [if_neg (not_not_intro hc1), if_neg ht]
      simp only [hcond, if_true, hop, h0, if_pos rfl]
  · intro c2 qop huv hcol2 hc2ne hcase hc1 hc2 ht
    have htruthy : optTruthy p.column2 = true := by
      rw [hcol2]
      show decide (c2 ≠ "") = true
      simp [hc2ne]
    have hcond : (p.use_value || !(optTruthy p.column2)) = false := by
      rw [huv, htruthy]
      rfl
    have hgetD : p.column2.getD "" = c2 := by rw [hcol2]; rfl
    rcases hcase with ⟨hop, hq⟩ | ⟨hop, hq⟩
    · subst hq
      refine ⟨setColumn df p.target_column
          (List.zipWith (cellBin qDiv)
            ((colValues df p.column1).map toNumericCell)
            (((colValues df c2).map toNumericCell).map
              (fun c => if c == Cell.num 0 then Cell.na else c))), ?_,
        mathColZipRows df hwf p.target_column p.column1 c2 qDiv⟩
      unfold mathOperation_transform_basic
      rw [if_neg (not_not_intro hc1), if_neg ht]
      simp only [hcond, Bool.false_eq_true, if_false, hgetD,
        if_neg (not_not_intro hc2), hop]
    · subst hq
      refine ⟨setColumn df p.target_column
          (List.zipWith (cellBin qMod)
            ((colValues df p.column1).map toNumericCell)
            (((colValues df c2).map toNumericCell).map
              (fun c => if c == Cell.num 0 then Cell.na else c))), ?_,
        mathColZipRows df hwf p.target_column p.column1 c2 qMod⟩
      unfold mathOperation_transform_basic
      rw [if_neg (not_not_intro hc1), if_neg ht]
      simp only [hcond, Bool.false_eq_true, if_false, hgetD,
        if_neg (not_not_intro hc2), hop]

/-- Witness for C5: on the sample table whose divisor column `d` holds a
zero in the second row, dividing column `x` by column `d` and taking `x`
modulo `d` each succeed with the missing-marker exactly at the zero
divisor. -/
theorem math_divide_by_zero_witness :
    (∃ df', mathOperation_transform_basic sampleDivTable sampleDivByColumn = Except.ok df'
      ∧ ∀ i a b, i < sampleDivTable.rows.length →
          (colValues sampleDivTable "x").getD i Cell.na = Cell.num a →
          (colValues sampleDivTable "d").getD i Cell.na = Cell.num b →
          (b = 0 → (colValues df' "ratio").getD i Cell.na = Cell.na)
          ∧ (b ≠ 0 → (colValues df' "ratio").getD i Cell.na = Cell.num (qDiv a b)))
    ∧ (∃ df', mathOperation_transform_basic sampleDivTable sampleModByColumn = Except.ok df'
      ∧ ∀ i a b, i < sampleDivTable.rows.length →
          (colValues sampleDivTable "x").getD i Cell.na = Cell.num a →
          (colValues sampleDivTable "d").getD i Cell.na = Cell.num b →
          (b = 0 → (colValues df' "remainder").getD i Cell.na = Cell.na)
          ∧ (b ≠ 0 → (colValues df' "remainder").getD i Cell.na = Cell.num (qMod a b))) :=
  ⟨(math_divide_by_zero sampleDivTable sampleDivByColumn (by decide)).2
      "d" qDiv (by decide) (by decide) (by decide) (Or.inl ⟨by decide, rfl⟩)
      (by decide) (by decide) (by decide),
    (math_divide_by_zero sampleDivTable sampleModByColumn (by decide)).2
      "d" qMod (by decide) (by decide) (by decide) (Or.inr ⟨by decide, rfl⟩)
      (by decide) (by decide) (by decide)⟩

/-- C6: custom-edges binning.  The spec's example edges produce exactly 5
categories when no labels are supplied, and any invocation whose non-empty
label list does not have exactly one label fewer than the edges fails with
an error instead of producing a column. -/
theorem binning_custom_edges (df : DataFrame) (p : BinCustomParams) :
    (p.custom_bins = [0, 18, 35, 50, 65, 100] → p.labels = [] →
      p.column ∈ df.cols → p.target_column ≠ "" →
      ∃ r, binningTransform_custom df p = Except.ok r ∧ r.2.length = 5)
    ∧ (p.labels ≠ [] → p.labels.length ≠ p.custom_bins.length - 1 →
        ∃ msg, binningTransform_custom df p = Except.error msg) := by
  constructor
  · intro hbins hlab hc ht
    unfold binningTransform_custom
    rw [if_neg (not_not_intro hc), if_neg ht]
    rw [if_neg (by rw [hbins]; exact (by decide : ([0, 18, 35, 50, 65, 100] : List Rat) ≠ []))]
    rw [if_neg (by rw [hbins]; decide)]
    rw [if_neg (by rw [hlab]; simp)]
    refine ⟨_, rfl, ?_⟩
    rw [hlab, hbins]
    simp only [if_pos rfl]
    decide
  · intro hlab hmis
    unfold binningTransform_custom
    split_ifs with h1 h2 h3 h4 h5
    any_goals exact ⟨_, rfl⟩
    exact absurd ⟨hlab, hmis⟩ h5

/-- Witness for C6 at the concrete age table and the spec's edges. -/
theorem binning_custom_edges_witness :
    ∃ r, binningTransform_custom ⟨["age"], [[Cell.num 20]]⟩ sampleBinParams = Except.ok r
      ∧ r.2.length = 5 :=
  (binning_custom_edges ⟨["age"], [[Cell.num 20]]⟩ sampleBinParams).1
    (by decide) rfl (by decide) (by decide)

theorem likelyDelimiter_spec (sample : List Char) :
    likelyDelimiter sample ∈ potentialDelimiters
    ∧ ∀ d ∈ potentialDelimiters,
        countChar sample d ≤ countChar sample (likelyDelimiter sample) := by
  unfold likelyDelimiter potentialDelimiters
  simp only [List.foldl_cons, List.foldl_nil]
  split_ifs <;>
    exact ⟨by decide, by intro d hd; fin_cases hd <;> omega⟩

/-- C9: for every delimited-text input read without a caller-supplied
delimiter, the Reader counts comma, semicolon, tab, and pipe in the first
4096 bytes; exactly when some candidate's count exceeds 5, the selected
delimiter is a most frequent candidate (with count above 5), and otherwise
the comma default is used. -/
theorem reader_delimiter_detection (content : List Char) :
    ((∃ d ∈ potentialDelimiters, countChar (content.take 4096) d > 5) →
      effectiveSep content ∈ potentialDelimiters
      ∧ countChar (content.take 4096) (effectiveSep content) > 5
      ∧ ∀ d ∈ potentialDelimiters,
          countChar (content.take 4096) d ≤ countChar (content.take 4096) (effectiveSep content))
    ∧ ((∀ d ∈ potentialDelimiters, ¬ countChar (content.take 4096) d > 5) →
        effectiveSep content = ',') := by
  obtain ⟨hmem, hmax⟩ := likelyDelimiter_spec (content.take 4096)
  constructor
  · rintro ⟨d, hd, hcount⟩
    have hbig : countChar (content.take 4096) (likelyDelimiter (content.take 4096)) > 5 :=
      lt_of_lt_of_le hcount (hmax d hd)
    have heff : effectiveSep content = likelyDelimiter (content.take 4096) := by
      unfold effectiveSep read_file_detect_sep
      rw [if_pos hbig]
      rfl
    rw [heff]
    exact ⟨hmem, hbig, hmax⟩
  · intro hall
    unfold effectiveSep read_file_detect_sep
    rw [if_neg (hall _ hmem)]
    rfl

/-- Witness for C9: a sample with six commas selects the comma; a sample
with few delimiters falls back to the comma default. -/
theorem reader_delimiter_detection_witness :
    effectiveSep "a,b,c,d,e,f,g;x".toList ∈ potentialDelimiters
    ∧ effectiveSep "a;b".toList = ',' :=
  ⟨((reader_delimiter_detection "a,b,c,d,e,f,g;x".toList).1
      ⟨',', by decide, by decide⟩).1,
    (reader_delimiter_detection "a;b".toList).2 (by decide)⟩

/-- Eager evaluation reaches every bare identifier of the expression: a
referenced name the namespace does not bind makes the whole evaluation
raise (Python NameError), whatever host effects happened before. -/
theorem evalExpr_unbound (h : EvalHost) (ns : String → Option PyVal) (e : PyExpr)
    (v : String) (hv : v ∈ refVars e) (hns : ns v = none) :
    ∃ msg effs, evalExpr h ns e = (Except.error msg, effs) := by
  induction e with
  | const q => cases hv
  | strLit s => cases hv
  | var m =>
      have hvm : v = m := by
        simpa [refVars] using hv
      subst hvm
      exact ⟨"name " ++ v ++ " is not defined", [], by simp [evalExpr, hns]⟩
  | binop op a b iha ihb =>
      rw [refVars, List.mem_append] at hv
      cases hv with
      | inl hva =>
          obtain ⟨m, es, hm⟩ := iha hva
          exact ⟨m, es, by simp [evalExpr, hm]⟩
      | inr hvb =>
          obtain ⟨m, es, hm⟩ := ihb hvb
          cases hea : evalExpr h ns a with
          | mk ra ea =>
              cases ra with
              | error m2 => exact ⟨m2, ea, by simp [evalExpr, hea]⟩
              | ok va => exact ⟨m, ea ++ es, by simp [evalExpr, hea, hm]⟩
  | attr o fld ih =>
      obtain ⟨m, es, hm⟩ := ih hv
      exact ⟨m, es, by simp [evalExpr, hm]⟩
  | call f arg ihf iha =>
      rw [refVars, List.mem_append] at hv
      cases hv with
      | inl hvf =>
          obtain ⟨m, es, hm⟩ := ihf hvf
          exact ⟨m, es, by simp [evalExpr, hm]⟩
      | inr hva =>
          obtain ⟨m, es, hm⟩ := iha hva
          cases hef : evalExpr h ns f with
          | mk rf ef =>
              cases rf with
              | error m2 => exact ⟨m2, ef, by simp [evalExpr, hef]⟩
              | ok vf => exact ⟨m, ef ++ es, by simp [evalExpr, hef, hm]⟩

/-- Counterexample to C8 as stated.  First, the namespace is built by a
SUBSTRING test on the expression text, so with columns `a` and `ab` and
the expression `ab * 2` the unreferenced column `a` is also placed in the
evaluation namespace.  Second, the namespace is not capability-free: the
entry bound at `np` is the whole numpy module, through which evaluating
`np.fromfile("secret.bin")` inside `create_calculated_column` performs a
host filesystem access. -/
theorem calculated_column_namespace_cex :
    ("a" ∈ localNamespaceCols ⟨["a", "ab"], [[Cell.num 1, Cell.num 2]]⟩
        ⟨"ab * 2", PyExpr.binop PyBinOp.mul (PyExpr.var "ab") (PyExpr.const 2)⟩
      ∧ "a" ∉ refVars (PyExpr.binop PyBinOp.mul (PyExpr.var "ab") (PyExpr.const 2)))
    ∧ (create_calculated_column sampleEvalHost ⟨["x"], [[Cell.num 1]]⟩ "out"
        fromfileExpr).2 = [HostEffect.fsAccess "fromfile" "secret.bin"] := by
  decide

/-- C8 as amended.  For every host, table and expression: the evaluation
namespace holds exactly the columns whose names occur as substrings of
the expression text (which can strictly include columns the expression
never references) plus the whole numpy module bound under `np` - a
binding that carries host capabilities, as the counterexample shows by
reaching the filesystem through it; bare-name lookup resolves only
through that namespace, so an expression referencing any other name
fails; and every evaluation failure surfaces as an error carrying the
underlying message, with no table produced. -/
theorem calculated_column_restricted (h : EvalHost) (df : DataFrame) (name : String)
    (e : Expression) :
    (localNamespace df e "np" = some PyVal.npModule
      ∧ ∀ c, c ≠ "np" →
          localNamespace df e c
            = if c ∈ df.cols ∧ strContains e.text c = true
              then some (PyVal.series (colValues df c)) else none)
    ∧ ((∃ v ∈ refVars e.ast, v ≠ "np" ∧ v ∉ localNamespaceCols df e) →
        ∃ msg, (create_calculated_column h df name e).1
          = Except.error ("Error creating calculated column: " ++ msg))
    ∧ (∀ msg, (create_calculated_column h df name e).1 = Except.error msg →
        ∃ m, msg = "Error creating calculated column: " ++ m) := by
  refine ⟨⟨?_, ?_⟩, ?_, ?_⟩
  · show (if ("np" : String) = "np" then some PyVal.npModule
        else if "np" ∈ localNamespaceCols df e then some (PyVal.series (colValues df "np"))
        else none) = some PyVal.npModule
    rw [if_pos rfl]
  · intro c hc
    show (if c = "np" then some PyVal.npModule
        else if c ∈ localNamespaceCols df e then some (PyVal.series (colValues df c))
        else none)
      = if c ∈ df.cols ∧ strContains e.text c = true
        then some (PyVal.series (colValues df c)) else none
    rw [if_neg hc]
    by_cases hm : c ∈ df.cols ∧ strContains e.text c = true
    · have hmem : c ∈ localNamespaceCols df e := by
        unfold localNamespaceCols
        exact List.mem_filter.mpr hm
      rw [if_pos hmem, if_pos hm]
    · have hmem : c ∉ localNamespaceCols df e := by
        unfold localNamespaceCols
        intro hx
        exact hm (List.mem_filter.mp hx)
      rw [if_neg hmem, if_neg hm]
  · rintro ⟨v, hv, hvnp, hvn⟩
    have hns : localNamespace df e v = none := by
      show (if v = "np" then some PyVal.npModule
          else if v ∈ localNamespaceCols df e then some (PyVal.series (colValues df v))
          else none) = none
      rw [if_neg hvnp, if_neg hvn]
    obtain ⟨m, es, hm⟩ := evalExpr_unbound h (localNamespace df e) e.ast v hv hns
    refine ⟨m, ?_⟩
    unfold create_calculated_column
    rw [hm]
  · intro msg hmsg
    unfold create_calculated_column at hmsg
    cases hev : evalExpr h (localNamespace df e) e.ast with
    | mk r effs =>
        rw [hev] at hmsg
        cases r with
        | ok v => simp at hmsg
        | error m =>
            injection hmsg with h2
            exact ⟨m, h2.symm⟩

/-- Witness for the amended C8: an expression referencing a name that is
neither a column nor `np` fails with the wrapped message. -/
theorem calculated_column_restricted_witness :
    ∃ msg, (create_calculated_column sampleEvalHost ⟨["a"], [[Cell.num 1]]⟩ "out"
        ⟨"z * 2", PyExpr.binop PyBinOp.mul (PyExpr.var "z") (PyExpr.const 2)⟩).1
      = Except.error ("Error creating calculated column: " ++ msg) :=
  (calculated_column_restricted sampleEvalHost ⟨["a"], [[Cell.num 1]]⟩ "out"
      ⟨"z * 2", PyExpr.binop PyBinOp.mul (PyExpr.var "z") (PyExpr.const 2)⟩).2.1
    ⟨"z", by decide, by decide, by decide⟩

theorem transformState_frame (f : DataFrame → Except String DataFrame) (s : PyState)
    (i : Nat) (hi : i < s.next) :
    (transformState f s i).1.heap i = s.heap i
    ∧ ∀ r, (transformState f s i).2 = Except.ok r → r ≠ i := by
  have hne : i ≠ s.next := Nat.ne_of_lt hi
  unfold transformState pyCopy pyWrite
  dsimp only
  split
  · refine ⟨?_, ?_⟩
    · show (if i = s.next then _ else if i = s.next then s.heap i else s.heap i) = s.heap i
      rw [if_neg hne, if_neg hne]
    · intro r h
      injection h with h2
      rw [← h2]
      exact Ne.symm hne
  · refine ⟨?_, ?_⟩
    · show (if i = s.next then s.heap i else s.heap i) = s.heap i
      rw [if_neg hne]
    · intro r h
      cases h

theorem clean_dataframe_frame (s : PyState) (i : Nat) (o : CleanOptions)
    (hi : i < s.next) :
    (clean_dataframe s i o).1.heap i = s.heap i ∧ (clean_dataframe s i o).2 ≠ i := by
  have hne : i ≠ s.next := Nat.ne_of_lt hi
  unfold clean_dataframe pyCopy pyWrite
  dsimp only
  refine ⟨?_, ?_⟩
  · show (if i = s.next then _ else if i = s.next then s.heap i else s.heap i) = s.heap i
    rw [if_neg hne, if_neg hne]
  · exact Ne.symm hne

/-- C10: the cleaning stage and the embedded transformers operate on a
copy and never mutate the caller's table: after `clean_dataframe` or a
transformer's `transform` returns (or raises), the table at the caller's
id is unchanged, and the returned table, when one is produced, lives at a
distinct id. -/
theorem transformers_preserve_input (s : PyState) (i : Nat) (hi : i < s.next)
    (co : CleanOptions) (sp : ScalingParams) (dp : DateExtractParams)
    (tp : TextCaseParams) (mp : MathBasicParams) :
    ((clean_dataframe s i co).1.heap i = s.heap i ∧ (clean_dataframe s i co).2 ≠ i)
    ∧ ((numericScaling_transform s i sp).1.heap i = s.heap i
        ∧ ∀ r, (numericScaling_transform s i sp).2 = Except.ok r → r ≠ i)
    ∧ ((dateExtract_transform s i dp).1.heap i = s.heap i
        ∧ ∀ r, (dateExtract_transform s i dp).2 = Except.ok r → r ≠ i)
    ∧ ((textCase_transform s i tp).1.heap i = s.heap i
        ∧ ∀ r, (textCase_transform s i tp).2 = Except.ok r → r ≠ i)
    ∧ ((mathOperation_transform s i mp).1.heap i = s.heap i
        ∧ ∀ r, (mathOperation_transform s i mp).2 = Except.ok r → r ≠ i) :=
  ⟨clean_dataframe_frame s i co hi,
   transformState_frame (fun d => numericScaling_pure d sp) s i hi,
   transformState_frame (fun d => dateExtract_pure d dp) s i hi,
   transformState_frame (fun d => textCase_pure d tp) s i hi,
   transformState_frame (fun d => mathOperation_transform_basic d mp) s i hi⟩

/-- Witness for C10 on a concrete one-table heap. -/
theorem transformers_preserve_input_witness :
    (clean_dataframe sampleHeapState 0 sampleCleanOptions).1.heap 0 = sampleHeapState.heap 0
    ∧ (clean_dataframe sampleHeapState 0 sampleCleanOptions).2 ≠ 0 :=
  (transformers_preserve_input sampleHeapState 0 (by decide)
    sampleCleanOptions sampleScalingParams sampleDateParams sampleTextParams
    sampleDivByColumn).1
